import Mathlib

/-!
Verification of the proxywar forward proxy (src/proxy_handler.rs,
src/backend_pool.rs, src/upstream.rs, src/main.rs).

Byte strings are modelled as `List Nat` (each element a byte value),
decoded text as `List Char`.  Rust functions are shallowly embedded as
executable Lean definitions; network and file-system effects are passed
in explicitly (chunk lists for stream reads, oracle functions for
connects and DNS lookups).  The file starts with all definitions; the
claim theorems follow.
-/

deriving instance DecidableEq for Except

namespace ProxyWar

/-! ## Rust `str` primitives

These model the exact `str` operations used by the source:
`char::is_whitespace` (the Unicode White_Space set), ASCII lowercasing,
`str::lines` (split at `\n`, dropping a final empty piece, stripping a
trailing `\r` from every `\n`-terminated line), `str::split_whitespace`,
and splitting at the first `\r\n`. -/

/-- Rust `char::is_whitespace`: the Unicode White_Space code points. -/
def isRustWhitespace (c : Char) : Bool :=
  let n := c.toNat
  decide ((0x9 ≤ n ∧ n ≤ 0xD) ∨ n = 0x20 ∨ n = 0x85 ∨ n = 0xA0 ∨ n = 0x1680 ∨
    (0x2000 ≤ n ∧ n ≤ 0x200A) ∨ n = 0x2028 ∨ n = 0x2029 ∨ n = 0x202F ∨
    n = 0x205F ∨ n = 0x3000)

/-- Rust `char::to_ascii_lowercase`: maps only ASCII A-Z. -/
def asciiLower (c : Char) : Char :=
  if 'A' ≤ c ∧ c ≤ 'Z' then Char.ofNat (c.toNat + 32) else c

/-- Splits a character list at every newline character; the list of
pieces is always non-empty and a trailing newline yields a final empty
piece (helper for `rustLines`). -/
def splitNL : List Char → List (List Char)
  | [] => [[]]
  | '\n' :: rest => [] :: splitNL rest
  | c :: rest =>
    match splitNL rest with
    | p :: ps => (c :: p) :: ps
    | [] => [[c]]

/-- Strips one trailing carriage return (helper for `rustLines`). -/
def stripCR (l : List Char) : List Char :=
  if l.getLast? = some '\r' then l.dropLast else l

/-- Rust `str::lines`: split at `\n`, drop the final piece when the text
ends with `\n`, and strip one trailing `\r` from every `\n`-terminated
line (a bare trailing `\r` on the last line is kept, as in Rust). -/
def rustLines (cs : List Char) : List (List Char) :=
  match (splitNL cs).getLast? with
  | some [] => (splitNL cs).dropLast.map stripCR
  | some last => (splitNL cs).dropLast.map stripCR ++ [last]
  | none => (splitNL cs).dropLast.map stripCR

/-- Rust `str::trim_start`. -/
def rustTrimStart (cs : List Char) : List Char :=
  cs.dropWhile isRustWhitespace

/-- Rust `str::trim` (both ends). -/
def rustTrim (cs : List Char) : List Char :=
  ((cs.dropWhile isRustWhitespace).reverse.dropWhile isRustWhitespace).reverse

/-- Accumulator-style core of `str::split_whitespace`. -/
def splitWSAux : List Char → List Char → List (List Char)
  | [], acc => if acc = [] then [] else [acc.reverse]
  | c :: rest, acc =>
    if isRustWhitespace c then
      if acc = [] then splitWSAux rest [] else acc.reverse :: splitWSAux rest []
    else splitWSAux rest (c :: acc)

/-- Rust `str::split_whitespace`: whitespace-separated words, no empties. -/
def splitWS (cs : List Char) : List (List Char) :=
  splitWSAux cs []

/-- First piece of Rust `text.split("\r\n")`: the characters before the
first `\r\n` sequence (the whole text when there is none). -/
def takeUntilCRLF : List Char → List Char
  | '\r' :: '\n' :: _ => []
  | c :: rest => c :: takeUntilCRLF rest
  | [] => []

/-- Rust `str::parse::<u16>`: an optional leading `+`, then one or more
ASCII digits, value at most 65535. -/
def parseU16 (cs : List Char) : Option Nat :=
  let digits := match cs with
    | '+' :: rest => rest
    | _ => cs
  if digits = [] then none
  else if digits.all (fun c => c.isDigit) then
    let v := digits.foldl (fun acc c => acc * 10 + (c.toNat - 48)) 0
    if v < 0x10000 then some v else none
  else none

/-! ## UTF-8

Rust's `std::str::from_utf8` validates strict UTF-8 (shortest form, no
surrogates, at most U+10FFFF).  `utf8DecodeStep` decodes one scalar
exactly as that validation does; `utf8DecodeFuel` iterates it (the fuel,
instantiated with the byte count, never runs out because every step
consumes at least one byte); `utf8Encode` is `str::as_bytes` on decoded
text. -/

/-- One step of strict UTF-8 decoding: the first scalar value and the
remaining bytes, or `none` on invalid input (stray continuation,
overlong form, surrogate, out-of-range, or truncated sequence). -/
def utf8DecodeStep (b : Nat) (rest : List Nat) : Option (Char × List Nat) :=
  if b < 0x80 then some (Char.ofNat b, rest)
  else if b < 0xC2 then none
  else if b < 0xE0 then
    match rest with
    | b2 :: rest2 =>
      if 0x80 ≤ b2 ∧ b2 < 0xC0 then
        some (Char.ofNat ((b - 0xC0) * 0x40 + (b2 - 0x80)), rest2)
      else none
    | [] => none
  else if b < 0xF0 then
    match rest with
    | b2 :: b3 :: rest3 =>
      if (0x80 ≤ b2 ∧ b2 < 0xC0) ∧ (0x80 ≤ b3 ∧ b3 < 0xC0) then
        let cp := (b - 0xE0) * 0x1000 + (b2 - 0x80) * 0x40 + (b3 - 0x80)
        if 0x800 ≤ cp ∧ (cp < 0xD800 ∨ 0xDFFF < cp) then some (Char.ofNat cp, rest3)
        else none
      else none
    | _ => none
  else if b < 0xF5 then
    match rest with
    | b2 :: b3 :: b4 :: rest4 =>
      if (0x80 ≤ b2 ∧ b2 < 0xC0) ∧ (0x80 ≤ b3 ∧ b3 < 0xC0) ∧ (0x80 ≤ b4 ∧ b4 < 0xC0) then
        let cp := (b - 0xF0) * 0x40000 + (b2 - 0x80) * 0x1000 + (b3 - 0x80) * 0x40 + (b4 - 0x80)
        if 0x10000 ≤ cp ∧ cp < 0x110000 then some (Char.ofNat cp, rest4)
        else none
      else none
    | _ => none
  else none

/-- Fuelled iteration of `utf8DecodeStep`. -/
def utf8DecodeFuel : Nat → List Nat → Option (List Char)
  | _, [] => some []
  | 0, _ :: _ => none
  | fuel + 1, b :: rest =>
    match utf8DecodeStep b rest with
    | none => none
    | some (c, rest2) => (utf8DecodeFuel fuel rest2).map (fun cs => c :: cs)

/-- Strict UTF-8 decoding of a byte list, as validated by
`std::str::from_utf8`: `none` exactly on invalid input. -/
def utf8Decode (l : List Nat) : Option (List Char) :=
  utf8DecodeFuel l.length l

/-- UTF-8 encoding of one character. -/
def utf8EncodeChar (c : Char) : List Nat :=
  let n := c.toNat
  if n < 0x80 then [n]
  else if n < 0x800 then [0xC0 + n / 0x40, 0x80 + n % 0x40]
  else if n < 0x10000 then
    [0xE0 + n / 0x1000, 0x80 + (n / 0x40) % 0x40, 0x80 + n % 0x40]
  else
    [0xF0 + n / 0x40000, 0x80 + (n / 0x1000) % 0x40, 0x80 + (n / 0x40) % 0x40, 0x80 + n % 0x40]

/-- UTF-8 encoding of text (Rust `str::as_bytes`). -/
def utf8Encode (cs : List Char) : List Nat :=
  (cs.map utf8EncodeChar).flatten

/-! ## `proxy_handler.rs`: header framing and rewriting -/

/-- The four header-terminator bytes `\r\n\r\n`. -/
def headerTerminator : List Nat := [13, 10, 13, 10]

/-- `ForwardProxy::find_header_end`: index of the first 4-byte window
equal to `\r\n\r\n` (`buf.windows(4).position(...)` in the source),
written as a left-to-right scan. -/
def find_header_end : List Nat → Option Nat
  | [] => none
  | b :: rest =>
    if (b :: rest).take 4 = headerTerminator then some 0
    else (find_header_end rest).map (· + 1)

/-- The terminator occurs in `buf` at offset `i`. -/
def occursAt (buf : List Nat) (i : Nat) : Prop :=
  (buf.drop i).take 4 = headerTerminator

instance (buf : List Nat) (i : Nat) : Decidable (occursAt buf i) := by
  unfold occursAt; infer_instance

/-- Name of the proxy-authorization header, lower case, as searched for
by `build_request_header`. -/
def proxyAuthNeedle : List Char := ("proxy-authorization:").toList

/-- The `lines().any(...)` predicate of `build_request_header`: the
line, left-trimmed and ASCII-lowercased, starts with
`proxy-authorization:`. -/
def isProxyAuthLine (line : List Char) : Bool :=
  proxyAuthNeedle.isPrefixOf ((rustTrimStart line).map asciiLower)

/-- Some line of the text is a proxy-authorization header line. -/
def hasProxyAuthLine (cs : List Char) : Bool :=
  (rustLines cs).any isProxyAuthLine

/-- Byte-level version: the bytes decode as UTF-8 and the decoded text
has a proxy-authorization line. -/
def bytesContainProxyAuthLine (bytes : List Nat) : Bool :=
  match utf8Decode bytes with
  | some cs => hasProxyAuthLine cs
  | none => false

/-- The header value prefix inserted by `build_request_header`
(`PROXY_AUTH_PREFIX` in the source). -/
def proxyAuthHeaderText : List Char := ("Proxy-Authorization: ").toList

/-- `ForwardProxy::build_request_header`: with no auth value the header
is returned unchanged; otherwise the header must end in `\r\n\r\n` and
decode as UTF-8, and a `Proxy-Authorization` line is inserted before the
terminator unless one already exists. -/
def build_request_header (original : List Nat) (auth : Option (List Char)) : Except String (List Nat) :=
  match auth with
  | none => .ok original
  | some authValue =>
    if original.length < 4 ∨ original.drop (original.length - 4) ≠ headerTerminator then
      .error ("malformed HTTP header")
    else
      let headerWithoutBlank := original.take (original.length - 4)
      match utf8Decode headerWithoutBlank with
      | none => .error ("request header is not valid utf-8")
      | some headerText =>
        if hasProxyAuthLine headerText then
          .ok original
        else
          .ok (headerWithoutBlank ++ [13, 10] ++ utf8Encode proxyAuthHeaderText ++
            utf8Encode authValue ++ headerTerminator)

/-- Number of proxy-authorization lines in the decoded pre-terminator
text of a header byte string (0 when the bytes are not UTF-8). -/
def countProxyAuthLines (bytes : List Nat) : Nat :=
  match utf8Decode (bytes.take (bytes.length - 4)) with
  | some cs => (rustLines cs).countP isProxyAuthLine
  | none => 0

/-- `ForwardProxy::HEADER_LIMIT` (64 KiB). -/
def HEADER_LIMIT : Nat := 64 * 1024

/-- `ForwardProxy::read_http_message`: the stream is modelled as the
list of successive `stream.read` results; an empty chunk models EOF
(`n == 0`), and exhausting the list models a read that never returns
(the timeout).  Mirrors the source loop: append the chunk, check the
size limit, then look for the header terminator. -/
def read_http_message (limit : Nat) : List (List Nat) → List Nat → Except String (List Nat × List Nat)
  | [], _ => .error ("timeout while reading message")
  | chunk :: rest, buffer =>
    if chunk = [] then .error ("connection closed while reading message")
    else
      let buffer' := buffer ++ chunk
      if buffer'.length > limit then
        .error ("message header exceeded " ++ toString limit ++ " bytes")
      else
        match find_header_end buffer' with
        | some pos => .ok (buffer'.take (pos + 4), buffer'.drop (pos + 4))
        | none => read_http_message limit rest buffer'

/-- A pre-accumulated buffer of sixteen full 4096-byte reads, exactly
at the 64 KiB limit (so earlier iterations did not fail). -/
def fullBuffer : List Nat := List.replicate 65536 97

/-- A 100-byte seventeenth chunk (within the 4096-byte read size) whose
last four bytes complete the header terminator. -/
def finalChunk : List Nat := List.replicate 96 97 ++ headerTerminator

/-- `ForwardProxy::parse_status_code`: decode the response header as
UTF-8, take the first `\r\n`-separated line, skip the HTTP-version
token, and parse the next whitespace-separated token as a `u16`. -/
def parse_status_code (header : List Nat) : Except String Nat :=
  match utf8Decode header with
  | none => .error ("response header is not valid utf-8")
  | some text =>
    let statusLine := takeUntilCRLF text
    match splitWS statusLine with
    | [] => .error ("missing HTTP version")
    | [_] => .error ("missing status code")
    | _ :: statusTok :: _ =>
      match parseU16 statusTok with
      | none => .error ("invalid status code")
      | some s => .ok s

/-- The canned 503 body (`respond_service_unavailable`). -/
def serviceUnavailableBody : List Char := ("Service Unavailable").toList

/-- The exact bytes written by `respond_service_unavailable`, built as
the source builds them (with the computed `Content-Length`). -/
def serviceUnavailableResponse : List Nat :=
  utf8Encode ((("HTTP/1.1 503 Service Unavailable\r\nContent-Length: ").toList) ++
    (toString serviceUnavailableBody.length).toList ++
    (("\r\nContent-Type: text/plain\r\nConnection: close\r\n\r\n").toList) ++
    serviceUnavailableBody)

/-! ## `upstream.rs`: proxy metadata and Basic auth -/

/-- Standard base64 alphabet character for a 6-bit value. -/
def base64Char (n : Nat) : Char :=
  if n < 26 then Char.ofNat (65 + n)
  else if n < 52 then Char.ofNat (97 + (n - 26))
  else if n < 62 then Char.ofNat (48 + (n - 52))
  else if n = 62 then '+'
  else '/'

/-- Standard base64 encoding with `=` padding (the `STANDARD` engine of
the base64 crate used by `basic_auth_header`). -/
def base64Encode : List Nat → List Char
  | b1 :: b2 :: b3 :: rest =>
    base64Char (b1 / 4) :: base64Char ((b1 % 4) * 16 + b2 / 16) ::
      base64Char ((b2 % 16) * 4 + b3 / 64) :: base64Char (b3 % 64) :: base64Encode rest
  | [b1, b2] =>
    [base64Char (b1 / 4), base64Char ((b1 % 4) * 16 + b2 / 16),
      base64Char ((b2 % 16) * 4), '=']
  | [b1] => [base64Char (b1 / 4), base64Char ((b1 % 4) * 16), '=', '=']
  | [] => []

/-- `ProxyMetadata` of upstream.rs. -/
structure ProxyMetadata where
  scheme : List Char
  host : List Char
  port : Nat
  username : Option (List Char)
  password : Option (List Char)
  original : List Char
deriving DecidableEq

/-- `ProxyMetadata::basic_auth_header`: `Basic <base64(user:pass)>` when
both credentials are present, `None` otherwise. -/
def ProxyMetadata.basic_auth_header (m : ProxyMetadata) : Option (List Char) :=
  match m.username, m.password with
  | some user, some pass =>
    some ((("Basic ").toList) ++ base64Encode (utf8Encode (user ++ ':' :: pass)))
  | _, _ => none

/-! ## `proxy_handler.rs`: a single attempt (`try_proxy_once`)

Network effects of one attempt are passed as an `AttemptNet` record:
the connect result (an abstract numeric handle for the upstream socket)
and the result of reading the upstream response header and body prefix.
The TLS/SNI peer options only configure the transport and are not
modelled beyond the connect result. -/

/-- The parsed initial client request (`InitialRequest` in the source). -/
structure InitialRequest where
  header : List Nat
  bodyPrefix : List Nat
  isConnect : Bool
deriving DecidableEq

/-- Network outcomes available to one attempt. -/
structure AttemptNet where
  connect : Except String Nat
  response : Except String (List Nat × List Nat)
deriving DecidableEq

/-- `AttemptOutcome` of the source. -/
inductive AttemptOutcome where
  | success (upstream : Nat) (responseHeader responseBodyPrefix : List Nat) (statusCode : Nat)
  | retry (statusCode bannedCount : Nat)
deriving DecidableEq

/-- Result of `try_proxy_once` together with the updated ban set and
the chunks written to the upstream socket. -/
structure AttemptResult where
  result : Except String AttemptOutcome
  banned : Finset (List Char)
  sent : List (List Nat)

/-- `ForwardProxy::try_proxy_once`: connect, build the request header
(injecting Basic auth when available), send header then body prefix,
read the response, parse the status, and classify: status 402/407/511
bans the backend and yields `Retry`; anything else yields `Success`. -/
def try_proxy_once (banned : Finset (List Char)) (addr : List Char) (meta : ProxyMetadata)
    (initial : InitialRequest) (net : AttemptNet) : AttemptResult :=
  match net.connect with
  | .error e => ⟨.error e, banned, []⟩
  | .ok upstream =>
    match build_request_header initial.header meta.basic_auth_header with
    | .error e => ⟨.error e, banned, []⟩
    | .ok requestHeader =>
      let sent := requestHeader :: (if initial.bodyPrefix = [] then [] else [initial.bodyPrefix])
      match net.response with
      | .error e => ⟨.error e, banned, sent⟩
      | .ok (responseHeader, responseBodyPrefix) =>
        match parse_status_code responseHeader with
        | .error e => ⟨.error e, banned, sent⟩
        | .ok status =>
          if status = 407 ∨ status = 402 ∨ status = 511 then
            let banned' := insert addr banned
            ⟨.ok (.retry status banned'.card), banned', sent⟩
          else
            ⟨.ok (.success upstream responseHeader responseBodyPrefix status), banned, sent⟩

/-! ## `backend_pool.rs` -/

/-- A pingora `Backend`: its address string and the `ProxyMetadata`
stored in its extension map (`ext.get::<ProxyMetadata>()`). -/
structure Backend where
  addr : List Char
  metadata : Option ProxyMetadata
deriving DecidableEq

/-- `SimpleBackendPool`: the immutable backend list and the round-robin
counter. -/
structure SimpleBackendPool where
  backends : List Backend
  counter : Nat
deriving DecidableEq

/-- `SimpleBackendPool::new`. -/
def SimpleBackendPool.new (backends : List Backend) : SimpleBackendPool :=
  ⟨backends, 0⟩

/-- The `usize` wrap-around modulus: the source's counter is an
`AtomicUsize` and `fetch_add(1, Relaxed)` wraps at `2^64` on a 64-bit
target. -/
def USIZE_MOD : Nat := 2 ^ 64

/-- `SimpleBackendPool::select`: `None` on an empty registry, otherwise
the backend at `counter % len`, incrementing the counter with `usize`
wrap-around (`fetch_add` returns the pre-increment value and stores
`counter + 1` modulo `2^64`). -/
def SimpleBackendPool.select (p : SimpleBackendPool) : Option Backend × SimpleBackendPool :=
  if p.backends.isEmpty then (none, p)
  else
    (p.backends[p.counter % p.backends.length]?,
      { backends := p.backends, counter := (p.counter + 1) % USIZE_MOD })

/-- `SimpleBackendPool::len`. -/
def SimpleBackendPool.len (p : SimpleBackendPool) : Nat := p.backends.length

/-- Results of `n` successive `select()` calls (single-threaded). -/
def runSelects : SimpleBackendPool → Nat → List (Option Backend)
  | _, 0 => []
  | p, n + 1 =>
    match p.select with
    | (r, p') => r :: runSelects p' n

/-! ## `proxy_handler.rs`: the per-session engine (`handle_connection`)

The attempt outcomes for each backend address are supplied by a `net`
oracle.  The loop returns the chunks written downstream, how the session
ended, the trace of addresses passed to `try_proxy_once`, and the final
ban set. -/

/-- `ForwardProxy::LB_MAX_ITERATIONS`. -/
def LB_MAX_ITERATIONS : Nat := 256

/-- How a session ended. -/
inductive SessionEnd where
  | unavailable (err : String)
  | authBanExit (status : Nat)
  | spliced (status : Nat)
deriving DecidableEq

/-- Observable result of a session. -/
structure SessionResult where
  writes : List (List Nat)
  ending : SessionEnd
  trace : List (List Char)
  banned : Finset (List Char)

/-- The selection/retry loop of `handle_connection` (the
`for _ in 0..LB_MAX_ITERATIONS` loop), fuelled by the iteration bound. -/
def sessionLoop (net : List Char → AttemptNet) (initial : InitialRequest) (total : Nat) :
    Nat → SimpleBackendPool → Finset (List Char) → Finset (List Char) → Option String →
    List (List Char) → SessionResult
  | 0, _, banned, _, lastError, trace =>
    ⟨[serviceUnavailableResponse],
      .unavailable (lastError.getD ("no healthy non-banned proxies available")), trace, banned⟩
  | fuel + 1, pool, banned, attempted, lastError, trace =>
    if total ≤ attempted.card then
      ⟨[serviceUnavailableResponse],
        .unavailable (lastError.getD ("no healthy non-banned proxies available")), trace, banned⟩
    else
      match pool.select with
      | (none, _) =>
        ⟨[serviceUnavailableResponse],
          .unavailable (lastError.getD ("no healthy non-banned proxies available")), trace, banned⟩
      | (some b, pool') =>
        if b.addr ∈ banned then
          sessionLoop net initial total fuel pool' banned (insert b.addr attempted) lastError trace
        else if b.addr ∈ attempted then
          sessionLoop net initial total fuel pool' banned attempted lastError trace
        else
          let attempted' := insert b.addr attempted
          match b.metadata with
          | none => sessionLoop net initial total fuel pool' banned attempted' lastError trace
          | some meta =>
            let a := try_proxy_once banned b.addr meta initial (net b.addr)
            let trace' := trace ++ [b.addr]
            match a.result with
            | .ok (.success _u rh rb status) =>
              let writes := rh :: (if rb = [] then [] else [rb])
              if status = 407 ∨ status = 402 ∨ status = 511 then
                ⟨writes, .authBanExit status, trace', insert b.addr a.banned⟩
              else
                ⟨writes, .spliced status, trace', a.banned⟩
            | .ok (.retry _ _) =>
              sessionLoop net initial total fuel pool' a.banned attempted' lastError trace'
            | .error e =>
              sessionLoop net initial total fuel pool' a.banned attempted' (some e) trace'

/-- `ForwardProxy::handle_connection`, from the point where the initial
request has been read: empty registry means the canned 503 and
termination; otherwise the selection/retry loop runs. -/
def handle_connection (net : List Char → AttemptNet) (initial : InitialRequest)
    (pool : SimpleBackendPool) (banned : Finset (List Char)) : SessionResult :=
  if pool.len = 0 then
    ⟨[serviceUnavailableResponse], .unavailable ("no upstream proxies configured"), [], banned⟩
  else
    sessionLoop net initial pool.len LB_MAX_ITERATIONS pool banned ∅ none []

/-! ## `upstream.rs`: the config loader (`load_backends_from_file`)

File reading, `Url::parse`, `Backend::new` and DNS resolution are
external to the repository (std, the url crate, pingora).  The URL
parser is modelled on the url crate restricted to the config grammar;
socket-address parsing and DNS are oracle parameters. -/

/-- Scheme characters after the first (ASCII letters, digits, `+`, `-`,
`.`), per the URL standard. -/
def isSchemeChar (c : Char) : Bool :=
  c.isAlpha || c.isDigit || c = '+' || c = '-' || c = '.'

/-- The URL fields consumed by the loader. -/
structure ParsedUrl where
  scheme : List Char
  username : List Char
  password : Option (List Char)
  host : List Char
  port : Option Nat
deriving DecidableEq

/-- Splits an authority at its last `@` into userinfo and host-port. -/
def splitUserinfo (authority : List Char) : Option (List Char) × List Char :=
  if '@' ∈ authority then
    let hostpart := (authority.reverse.takeWhile (fun c => c ≠ '@')).reverse
    (some (authority.take (authority.length - hostpart.length - 1)), hostpart)
  else (none, authority)

/-- Splits a host-port at its last `:` into host and port text. -/
def splitPort (hostport : List Char) : List Char × Option (List Char) :=
  if ':' ∈ hostport then
    let portpart := (hostport.reverse.takeWhile (fun c => c ≠ ':')).reverse
    (hostport.take (hostport.length - portpart.length - 1), some portpart)
  else (hostport, none)

/-- Modelled from the url crate (an external dependency): `Url::parse`
restricted to the config grammar `scheme://[user[:pass]@]host[:port][/…]`.
The scheme (a letter followed by scheme characters) and host are
lowercased as the crate normalizes them; any scheme is accepted; the
port text must be empty (absent) or all digits with value at most
65535; the host must be non-empty.  Percent-encoding and IPv6 host
brackets are outside the modelled fragment. -/
def urlParse (cs : List Char) : Option ParsedUrl :=
  let schemePart := cs.takeWhile isSchemeChar
  let rest := cs.drop schemePart.length
  match schemePart.head? with
  | none => none
  | some c0 =>
    if c0.isAlpha then
      match rest with
      | ':' :: '/' :: '/' :: rest2 =>
        let authority := rest2.takeWhile (fun c => c ≠ '/' ∧ c ≠ '?' ∧ c ≠ '#')
        let ui := splitUserinfo authority
        let username := (ui.1.getD []).takeWhile (fun c => c ≠ ':')
        let password := match ui.1 with
          | none => none
          | some u => if ':' ∈ u then some (u.drop (username.length + 1)) else none
        let hp := splitPort ui.2
        if hp.1 = [] then none
        else
          let scheme := schemePart.map asciiLower
          let host := hp.1.map asciiLower
          match hp.2 with
          | none => some ⟨scheme, username, password, host, none⟩
          | some [] => some ⟨scheme, username, password, host, none⟩
          | some ps =>
            if ps.all Char.isDigit then
              let v := ps.foldl (fun acc c => acc * 10 + (c.toNat - 48)) 0
              if v < 0x10000 then some ⟨scheme, username, password, host, some v⟩ else none
            else none
      | _ => none
    else none

/-- Modelled from the url crate: `port_or_known_default` knows only the
default ports of the http, https, ws, wss and ftp schemes. -/
def defaultPort (scheme : List Char) : Option Nat :=
  if scheme = ("http").toList then some 80
  else if scheme = ("https").toList then some 443
  else if scheme = ("ws").toList then some 80
  else if scheme = ("wss").toList then some 443
  else if scheme = ("ftp").toList then some 21
  else none

/-- One iteration of the loader loop of `load_backends_from_file`:
`idx` is the 0-based line index, `tryDirect` models
`Backend::new(&socket_addr_str)` succeeding on a literal socket
address, `resolver` models `to_socket_addrs` yielding its first
address.  `ok none` is a skipped (empty or `#`-comment) line. -/
def loadLine (tryDirect : List Char → Bool) (resolver : List Char → Option (List Char))
    (idx : Nat) (line : List Char) : Except String (Option Backend) :=
  let trimmed := rustTrim line
  if trimmed = [] ∨ trimmed.head? = some '#' then .ok none
  else
    match urlParse trimmed with
    | none => .error ("invalid proxy url on line " ++ toString (idx + 1) ++ ": " ++ ⟨trimmed⟩)
    | some u =>
      match u.port.orElse (fun _ => defaultPort u.scheme) with
      | none => .error ("missing port for proxy url on line " ++ toString (idx + 1))
      | some port =>
        let socketAddrStr := u.host ++ ':' :: (toString port).toList
        let mkBackend := fun (addr : List Char) =>
          let username := if u.username = [] then none else some u.username
          Backend.mk addr (some ⟨u.scheme, u.host, port, username, u.password, trimmed⟩)
        if tryDirect socketAddrStr then .ok (some (mkBackend socketAddrStr))
        else
          match resolver socketAddrStr with
          | some addr => .ok (some (mkBackend addr))
          | none =>
            .error ("could not resolve hostname " ++ ⟨u.host⟩ ++ " on line " ++ toString (idx + 1))

/-- `load_backends_from_file` over the file content (iterating
`str::lines` with indices as `enumerate` does), including the final
empty-result check. -/
def load_backends_from_file (tryDirect : List Char → Bool)
    (resolver : List Char → Option (List Char)) (content : List Char) :
    Except String (List Backend) :=
  let step := fun (acc : Except String (List Backend)) (p : Nat × List Char) =>
    match acc with
    | .error e => .error e
    | .ok bs =>
      match loadLine tryDirect resolver p.1 p.2 with
      | .error e => .error e
      | .ok none => .ok bs
      | .ok (some b) => .ok (bs ++ [b])
  match (rustLines content).enum.foldl step (.ok []) with
  | .error e => .error e
  | .ok [] => .error ("no proxies loaded")
  | .ok bs => .ok bs

/-! ## UTF-8 lemmas -/

theorem utf8DecodeStep_length {b : Nat} {rest : List Nat} {c : Char} {rest2 : List Nat}
    (h : utf8DecodeStep b rest = some (c, rest2)) : rest2.length ≤ rest.length := by
  unfold utf8DecodeStep at h
  by_cases h1 : b < 0x80
  · rw [if_pos h1] at h
    injection h with hp
    injection hp with hc hr
    subst hr
    exact le_rfl
  · rw [if_neg h1] at h
    by_cases h2 : b < 0xC2
    · rw [if_pos h2] at h; cases h
    · rw [if_neg h2] at h
      by_cases h3 : b < 0xE0
      · rw [if_pos h3] at h
        cases rest with
        | nil => dsimp only at h; cases h
        | cons b2 r2 =>
          dsimp only at h
          by_cases hc2 : 0x80 ≤ b2 ∧ b2 < 0xC0
          · rw [if_pos hc2] at h
            injection h with hp
            injection hp with hc hr
            subst hr
            simp
          · rw [if_neg hc2] at h; cases h
      · rw [if_neg h3] at h
        by_cases h4 : b < 0xF0
        · rw [if_pos h4] at h
          match rest with
          | [] => dsimp only at h; cases h
          | [b2] => dsimp only at h; cases h
          | b2 :: b3 :: r3 =>
            dsimp only at h
            by_cases hc2 : (0x80 ≤ b2 ∧ b2 < 0xC0) ∧ (0x80 ≤ b3 ∧ b3 < 0xC0)
            · rw [if_pos hc2] at h
              by_cases hcp : 0x800 ≤ (b - 0xE0) * 0x1000 + (b2 - 0x80) * 0x40 + (b3 - 0x80) ∧
                  ((b - 0xE0) * 0x1000 + (b2 - 0x80) * 0x40 + (b3 - 0x80) < 0xD800 ∨
                    0xDFFF < (b - 0xE0) * 0x1000 + (b2 - 0x80) * 0x40 + (b3 - 0x80))
              · rw [if_pos hcp] at h
                injection h with hp
                injection hp with hc hr
                subst hr
                simp
                omega
              · rw [if_neg hcp] at h; cases h
            · rw [if_neg hc2] at h; cases h
        · rw [if_neg h4] at h
          by_cases h5 : b < 0xF5
          · rw [if_pos h5] at h
            match rest with
            | [] => dsimp only at h; cases h
            | [b2] => dsimp only at h; cases h
            | [b2, b3] => dsimp only at h; cases h
            | b2 :: b3 :: b4 :: r4 =>
              dsimp only at h
              by_cases hc2 : (0x80 ≤ b2 ∧ b2 < 0xC0) ∧ (0x80 ≤ b3 ∧ b3 < 0xC0) ∧
                  (0x80 ≤ b4 ∧ b4 < 0xC0)
              · rw [if_pos hc2] at h
                by_cases hcp : 0x10000 ≤ (b - 0xF0) * 0x40000 + (b2 - 0x80) * 0x1000 +
                      (b3 - 0x80) * 0x40 + (b4 - 0x80) ∧
                    (b - 0xF0) * 0x40000 + (b2 - 0x80) * 0x1000 + (b3 - 0x80) * 0x40 +
                      (b4 - 0x80) < 0x110000
                · rw [if_pos hcp] at h
                  injection h with hp
                  injection hp with hc hr
                  subst hr
                  simp
                  omega
                · rw [if_neg hcp] at h; cases h
              · rw [if_neg hc2] at h; cases h
          · rw [if_neg h5] at h; cases h

theorem utf8DecodeFuel_stable : ∀ (n m : Nat) (l : List Nat), l.length ≤ n → l.length ≤ m →
    utf8DecodeFuel n l = utf8DecodeFuel m l := by
  intro n
  induction n with
  | zero =>
    intro m l hn _
    match l with
    | [] => cases m <;> rfl
    | _ :: _ => simp at hn
  | succ n ih =>
    intro m l hn hm
    match l with
    | [] => cases m <;> rfl
    | b :: rest =>
      match m with
      | 0 => simp at hm
      | m + 1 =>
        show (match utf8DecodeStep b rest with
          | none => none
          | some (c, rest2) => (utf8DecodeFuel n rest2).map (fun cs => c :: cs)) =
          (match utf8DecodeStep b rest with
          | none => none
          | some (c, rest2) => (utf8DecodeFuel m rest2).map (fun cs => c :: cs))
        match hs : utf8DecodeStep b rest with
        | none => rfl
        | some (c, rest2) =>
          have hl := utf8DecodeStep_length hs
          simp only []
          rw [ih m rest2 (by simp at hn; omega) (by simp at hm; omega)]

theorem utf8Decode_cons (b : Nat) (rest : List Nat) :
    utf8Decode (b :: rest) =
      match utf8DecodeStep b rest with
      | none => none
      | some (c, rest2) => (utf8Decode rest2).map (fun cs => c :: cs) := by
  show utf8DecodeFuel (rest.length + 1) (b :: rest) = _
  show (match utf8DecodeStep b rest with
      | none => none
      | some (c, rest2) => (utf8DecodeFuel rest.length rest2).map (fun cs => c :: cs)) = _
  match hs : utf8DecodeStep b rest with
  | none => rfl
  | some (c, rest2) =>
    have hl := utf8DecodeStep_length hs
    simp only []
    rw [utf8DecodeFuel_stable rest.length rest2.length rest2 hl le_rfl]
    rfl

theorem utf8DecodeStep_some {b : Nat} {rest : List Nat} {c : Char} {rest2 : List Nat}
    (h : utf8DecodeStep b rest = some (c, rest2)) :
    rest2.length ≤ rest.length ∧
      ∀ bb : List Nat, utf8DecodeStep b (rest ++ bb) = some (c, rest2 ++ bb) := by
  unfold utf8DecodeStep at h
  by_cases h1 : b < 0x80
  · rw [if_pos h1] at h
    injection h with hp
    injection hp with hc hr
    subst hc
    subst hr
    refine ⟨le_rfl, fun bb => ?_⟩
    unfold utf8DecodeStep
    rw [if_pos h1]
  · rw [if_neg h1] at h
    by_cases h2 : b < 0xC2
    · rw [if_pos h2] at h; cases h
    · rw [if_neg h2] at h
      by_cases h3 : b < 0xE0
      · rw [if_pos h3] at h
        cases rest with
        | nil => dsimp only at h; cases h
        | cons b2 r2 =>
          dsimp only at h
          by_cases hc2 : 0x80 ≤ b2 ∧ b2 < 0xC0
          · rw [if_pos hc2] at h
            injection h with hp
            injection hp with hc hr
            subst hc
            subst hr
            refine ⟨by simp, fun bb => ?_⟩
            unfold utf8DecodeStep
            rw [if_neg h1, if_neg h2, if_pos h3]
            simp only [List.cons_append]
            rw [if_pos hc2]
          · rw [if_neg hc2] at h; cases h
      · rw [if_neg h3] at h
        by_cases h4 : b < 0xF0
        · rw [if_pos h4] at h
          match rest with
          | [] => dsimp only at h; cases h
          | [b2] => dsimp only at h; cases h
          | b2 :: b3 :: r3 =>
            dsimp only at h
            by_cases hc2 : (0x80 ≤ b2 ∧ b2 < 0xC0) ∧ (0x80 ≤ b3 ∧ b3 < 0xC0)
            · rw [if_pos hc2] at h
              by_cases hcp : 0x800 ≤ (b - 0xE0) * 0x1000 + (b2 - 0x80) * 0x40 + (b3 - 0x80) ∧
                  ((b - 0xE0) * 0x1000 + (b2 - 0x80) * 0x40 + (b3 - 0x80) < 0xD800 ∨
                    0xDFFF < (b - 0xE0) * 0x1000 + (b2 - 0x80) * 0x40 + (b3 - 0x80))
              · rw [if_pos hcp] at h
                injection h with hp
                injection hp with hc hr
                subst hc
                subst hr
                refine ⟨by simp; omega, fun bb => ?_⟩
                unfold utf8DecodeStep
                rw [if_neg h1, if_neg h2, if_neg h3, if_pos h4]
                simp only [List.cons_append]
                rw [if_pos hc2, if_pos hcp]
              · rw [if_neg hcp] at h; cases h
            · rw [if_neg hc2] at h; cases h
        · rw [if_neg h4] at h
          by_cases h5 : b < 0xF5
          · rw [if_pos h5] at h
            match rest with
            | [] => dsimp only at h; cases h
            | [b2] => dsimp only at h; cases h
            | [b2, b3] => dsimp only at h; cases h
            | b2 :: b3 :: b4 :: r4 =>
              dsimp only at h
              by_cases hc2 : (0x80 ≤ b2 ∧ b2 < 0xC0) ∧ (0x80 ≤ b3 ∧ b3 < 0xC0) ∧
                  (0x80 ≤ b4 ∧ b4 < 0xC0)
              · rw [if_pos hc2] at h
                by_cases hcp : 0x10000 ≤ (b - 0xF0) * 0x40000 + (b2 - 0x80) * 0x1000 +
                      (b3 - 0x80) * 0x40 + (b4 - 0x80) ∧
                    (b - 0xF0) * 0x40000 + (b2 - 0x80) * 0x1000 + (b3 - 0x80) * 0x40 +
                      (b4 - 0x80) < 0x110000
                · rw [if_pos hcp] at h
                  injection h with hp
                  injection hp with hc hr
                  subst hc
                  subst hr
                  refine ⟨by simp; omega, fun bb => ?_⟩
                  unfold utf8DecodeStep
                  rw [if_neg h1, if_neg h2, if_neg h3, if_neg h4, if_pos h5]
                  simp only [List.cons_append]
                  rw [if_pos hc2, if_pos hcp]
                · rw [if_neg hcp] at h; cases h
              · rw [if_neg hc2] at h; cases h
          · rw [if_neg h5] at h; cases h

theorem utf8Decode_append_aux :
    ∀ (n : Nat) (a : List Nat), a.length ≤ n → ∀ (bb : List Nat) (ca : List Char),
      utf8Decode a = some ca →
      utf8Decode (a ++ bb) = (utf8Decode bb).map (fun cb => ca ++ cb) := by
  intro n
  induction n with
  | zero =>
    intro a ha bb ca h
    match a with
    | [] =>
      have hca : some ([] : List Char) = some ca := h
      injection hca with hca
      subst hca
      simp
    | _ :: _ => simp at ha
  | succ n ih =>
    intro a ha bb ca h
    match a with
    | [] =>
      have hca : some ([] : List Char) = some ca := h
      injection hca with hca
      subst hca
      simp
    | b :: rest =>
      rw [utf8Decode_cons] at h
      match hs : utf8DecodeStep b rest with
      | none => rw [hs] at h; cases h
      | some (c, rest2) =>
        rw [hs] at h
        dsimp only at h
        obtain ⟨hlen, happ⟩ := utf8DecodeStep_some hs
        match hr : utf8Decode rest2 with
        | none => rw [hr] at h; cases h
        | some cs =>
          rw [hr] at h
          simp only [Option.map_some', Option.some.injEq] at h
          subst h
          show utf8Decode (b :: (rest ++ bb)) = _
          rw [utf8Decode_cons, happ bb]
          dsimp only
          have hlen2 : rest2.length ≤ n := by
            simp at ha
            omega
          rw [ih rest2 hlen2 bb cs hr]
          cases utf8Decode bb <;> rfl

theorem utf8Decode_append {a : List Nat} {ca : List Char} (bb : List Nat)
    (h : utf8Decode a = some ca) :
    utf8Decode (a ++ bb) = (utf8Decode bb).map (fun cb => ca ++ cb) :=
  utf8Decode_append_aux a.length a le_rfl bb ca h

theorem utf8DecodeStep_ascii (b : Nat) (rest : List Nat) (h1 : b < 0x80) :
    utf8DecodeStep b rest = some (Char.ofNat b, rest) := by
  unfold utf8DecodeStep
  rw [if_pos h1]

theorem utf8DecodeStep_two (b b2 : Nat) (rest : List Nat)
    (h1 : ¬ b < 0x80) (h2 : ¬ b < 0xC2) (h3 : b < 0xE0) (hc : 0x80 ≤ b2 ∧ b2 < 0xC0) :
    utf8DecodeStep b (b2 :: rest) =
      some (Char.ofNat ((b - 0xC0) * 0x40 + (b2 - 0x80)), rest) := by
  unfold utf8DecodeStep
  rw [if_neg h1, if_neg h2, if_pos h3]
  dsimp only
  rw [if_pos hc]

theorem utf8DecodeStep_three (b b2 b3 : Nat) (rest : List Nat)
    (h1 : ¬ b < 0x80) (h2 : ¬ b < 0xC2) (h3 : ¬ b < 0xE0) (h4 : b < 0xF0)
    (hc : (0x80 ≤ b2 ∧ b2 < 0xC0) ∧ (0x80 ≤ b3 ∧ b3 < 0xC0))
    (hcp : 0x800 ≤ (b - 0xE0) * 0x1000 + (b2 - 0x80) * 0x40 + (b3 - 0x80) ∧
      ((b - 0xE0) * 0x1000 + (b2 - 0x80) * 0x40 + (b3 - 0x80) < 0xD800 ∨
        0xDFFF < (b - 0xE0) * 0x1000 + (b2 - 0x80) * 0x40 + (b3 - 0x80))) :
    utf8DecodeStep b (b2 :: b3 :: rest) =
      some (Char.ofNat ((b - 0xE0) * 0x1000 + (b2 - 0x80) * 0x40 + (b3 - 0x80)), rest) := by
  unfold utf8DecodeStep
  rw [if_neg h1, if_neg h2, if_neg h3, if_pos h4]
  dsimp only
  rw [if_pos hc, if_pos hcp]

theorem utf8DecodeStep_four (b b2 b3 b4 : Nat) (rest : List Nat)
    (h1 : ¬ b < 0x80) (h2 : ¬ b < 0xC2) (h3 : ¬ b < 0xE0) (h4 : ¬ b < 0xF0) (h5 : b < 0xF5)
    (hc : (0x80 ≤ b2 ∧ b2 < 0xC0) ∧ (0x80 ≤ b3 ∧ b3 < 0xC0) ∧ (0x80 ≤ b4 ∧ b4 < 0xC0))
    (hcp : 0x10000 ≤ (b - 0xF0) * 0x40000 + (b2 - 0x80) * 0x1000 + (b3 - 0x80) * 0x40 + (b4 - 0x80) ∧
      (b - 0xF0) * 0x40000 + (b2 - 0x80) * 0x1000 + (b3 - 0x80) * 0x40 + (b4 - 0x80) < 0x110000) :
    utf8DecodeStep b (b2 :: b3 :: b4 :: rest) =
      some (Char.ofNat
        ((b - 0xF0) * 0x40000 + (b2 - 0x80) * 0x1000 + (b3 - 0x80) * 0x40 + (b4 - 0x80)), rest) := by
  unfold utf8DecodeStep
  rw [if_neg h1, if_neg h2, if_neg h3, if_neg h4, if_pos h5]
  dsimp only
  rw [if_pos hc, if_pos hcp]


theorem utf8Decode_encodeChar_append (c : Char) (tail : List Nat) :
    utf8Decode (utf8EncodeChar c ++ tail) = (utf8Decode tail).map (fun cs => c :: cs) := by
  have hv : c.toNat < 0xD800 ∨ (0xDFFF < c.toNat ∧ c.toNat < 0x110000) := c.valid
  by_cases ha : c.toNat < 0x80
  · have he : utf8EncodeChar c = [c.toNat] := by
      unfold utf8EncodeChar
      rw [if_pos ha]
    rw [he, List.cons_append, List.nil_append, utf8Decode_cons,
      utf8DecodeStep_ascii c.toNat tail ha, Char.ofNat_toNat]
  · by_cases hb : c.toNat < 0x800
    · have he : utf8EncodeChar c = [0xC0 + c.toNat / 0x40, 0x80 + c.toNat % 0x40] := by
        unfold utf8EncodeChar
        rw [if_neg ha, if_pos hb]
      rw [he]
      simp only [List.cons_append, List.nil_append]
      rw [utf8Decode_cons,
        utf8DecodeStep_two _ _ _ (by omega) (by omega) (by omega) (by omega)]
      have harith : (0xC0 + c.toNat / 0x40 - 0xC0) * 0x40 + (0x80 + c.toNat % 0x40 - 0x80) =
          c.toNat := by omega
      rw [harith, Char.ofNat_toNat]
    · by_cases hc : c.toNat < 0x10000
      · have he : utf8EncodeChar c =
            [0xE0 + c.toNat / 0x1000, 0x80 + (c.toNat / 0x40) % 0x40, 0x80 + c.toNat % 0x40] := by
          unfold utf8EncodeChar
          rw [if_neg ha, if_neg hb, if_pos hc]
        rw [he]
        simp only [List.cons_append, List.nil_append]
        rw [utf8Decode_cons,
          utf8DecodeStep_three _ _ _ _ (by omega) (by omega) (by omega) (by omega)
            (by omega) (by omega)]
        have harith : (0xE0 + c.toNat / 0x1000 - 0xE0) * 0x1000 +
            (0x80 + (c.toNat / 0x40) % 0x40 - 0x80) * 0x40 + (0x80 + c.toNat % 0x40 - 0x80) =
            c.toNat := by omega
        rw [harith, Char.ofNat_toNat]
      · have he : utf8EncodeChar c =
            [0xF0 + c.toNat / 0x40000, 0x80 + (c.toNat / 0x1000) % 0x40,
              0x80 + (c.toNat / 0x40) % 0x40, 0x80 + c.toNat % 0x40] := by
          unfold utf8EncodeChar
          rw [if_neg ha, if_neg hb, if_neg hc]
        rw [he]
        simp only [List.cons_append, List.nil_append]
        rw [utf8Decode_cons,
          utf8DecodeStep_four _ _ _ _ _ (by omega) (by omega) (by omega) (by omega)
            (by omega) (by omega) (by omega)]
        have harith : (0xF0 + c.toNat / 0x40000 - 0xF0) * 0x40000 +
            (0x80 + (c.toNat / 0x1000) % 0x40 - 0x80) * 0x1000 +
            (0x80 + (c.toNat / 0x40) % 0x40 - 0x80) * 0x40 + (0x80 + c.toNat % 0x40 - 0x80) =
            c.toNat := by omega
        rw [harith, Char.ofNat_toNat]

theorem utf8Decode_encode_append (cs : List Char) (tail : List Nat) :
    utf8Decode (utf8Encode cs ++ tail) = (utf8Decode tail).map (fun t => cs ++ t) := by
  induction cs with
  | nil =>
    show utf8Decode (([] : List Nat) ++ tail) = _
    rw [List.nil_append]
    cases utf8Decode tail <;> rfl
  | cons c cs ih =>
    have he : utf8Encode (c :: cs) = utf8EncodeChar c ++ utf8Encode cs := by
      simp [utf8Encode]
    rw [he, List.append_assoc, utf8Decode_encodeChar_append, ih]
    cases utf8Decode tail <;> rfl

theorem utf8Decode_encode (cs : List Char) : utf8Decode (utf8Encode cs) = some cs := by
  have h := utf8Decode_encode_append cs []
  rw [List.append_nil] at h
  rw [h]
  show Option.map (fun t => cs ++ t) (some []) = some cs
  simp

/-! ## Lemmas about `find_header_end` -/

theorem occursAt_cons (b : Nat) (l : List Nat) (i : Nat) :
    occursAt (b :: l) (i + 1) ↔ occursAt l i := by
  simp [occursAt]

theorem find_header_end_none_iff (buf : List Nat) :
    find_header_end buf = none ↔ ∀ i, ¬ occursAt buf i := by
  induction buf with
  | nil =>
    simp only [find_header_end, true_iff]
    intro i hc
    simp [occursAt, headerTerminator] at hc
  | cons b rest ih =>
    by_cases hc : b :: rest.take 3 = headerTerminator
    · have h0 : occursAt (b :: rest) 0 := by simpa [occursAt] using hc
      have hfe : find_header_end (b :: rest) = some 0 := by simp [find_header_end, hc]
      rw [hfe]
      constructor
      · intro hf; cases hf
      · intro hAll; exact absurd h0 (hAll 0)
    · have hstep : find_header_end (b :: rest) = (find_header_end rest).map (· + 1) := by
        simp [find_header_end, hc]
      rw [hstep, Option.map_eq_none', ih]
      constructor
      · intro hAll i
        cases i with
        | zero => intro h0; exact hc (by simpa [occursAt] using h0)
        | succ j => rw [occursAt_cons]; exact hAll j
      · intro hAll j hj
        exact hAll (j + 1) ((occursAt_cons b rest j).mpr hj)

theorem find_header_end_some (buf : List Nat) (i : Nat) (h : find_header_end buf = some i) :
    occursAt buf i ∧ ∀ j, j < i → ¬ occursAt buf j := by
  induction buf generalizing i with
  | nil => simp [find_header_end] at h
  | cons b rest ih =>
    by_cases hc : b :: rest.take 3 = headerTerminator
    · have hfe : find_header_end (b :: rest) = some 0 := by simp [find_header_end, hc]
      rw [hfe] at h
      injection h with h0
      subst h0
      exact ⟨by simpa [occursAt] using hc, by intro j hj; omega⟩
    · have hstep : (find_header_end rest).map (· + 1) = some i := by
        rw [show find_header_end (b :: rest) = (find_header_end rest).map (· + 1) from by
          simp [find_header_end, hc]] at h
        exact h
      match hfr : find_header_end rest with
      | none => rw [hfr] at hstep; simp at hstep
      | some i' =>
        rw [hfr] at hstep
        simp only [Option.map_some', Option.some.injEq] at hstep
        obtain ⟨ho, hmin⟩ := ih i' hfr
        subst hstep
        refine ⟨(occursAt_cons b rest i').mpr ho, ?_⟩
        intro j hj
        cases j with
        | zero => simpa [occursAt] using hc
        | succ k => rw [occursAt_cons]; exact hmin k (by omega)

theorem occursAt_add_four_le {buf : List Nat} {i : Nat} (h : occursAt buf i) :
    i + 4 ≤ buf.length := by
  have hl := congrArg List.length h
  simp [occursAt, headerTerminator] at hl
  omega

/-- C5: for any byte sequence, `find_header_end` returns `none` exactly
when `\r\n\r\n` does not occur, and otherwise the offset of its first
occurrence; splitting the buffer at offset+4 yields a header ending in
`\r\n\r\n` and a body prefix whose concatenation is the original
buffer. -/
theorem find_header_end_spec (buf : List Nat) :
    (find_header_end buf = none ↔ ∀ i, ¬ occursAt buf i) ∧
    (∀ i, find_header_end buf = some i →
      occursAt buf i ∧ (∀ j, j < i → ¬ occursAt buf j) ∧
      (buf.take (i + 4)).drop ((buf.take (i + 4)).length - 4) = headerTerminator ∧
      buf.take (i + 4) ++ buf.drop (i + 4) = buf) := by
  refine ⟨find_header_end_none_iff buf, ?_⟩
  intro i h
  obtain ⟨ho, hmin⟩ := find_header_end_some buf i h
  have hlen : i + 4 ≤ buf.length := occursAt_add_four_le ho
  refine ⟨ho, hmin, ?_, List.take_append_drop _ _⟩
  have hlt : (buf.take (i + 4)).length = i + 4 := by
    simp
    omega
  rw [hlt]
  have h4 : i + 4 - 4 = i := by omega
  rw [h4, List.drop_take]
  have h44 : i + 4 - i = 4 := by omega
  rw [h44]
  exact ho

/-- C5 witness: the spec evaluated on the concrete buffer
`ab\r\n\r\ncd`, whose first terminator occurrence is at offset 2. -/
theorem find_header_end_spec_witness :
    occursAt (utf8Encode (("ab\r\n\r\ncd").toList)) 2 ∧
    (∀ j, j < 2 → ¬ occursAt (utf8Encode (("ab\r\n\r\ncd").toList)) j) ∧
    ((utf8Encode (("ab\r\n\r\ncd").toList)).take 6).drop
      (((utf8Encode (("ab\r\n\r\ncd").toList)).take 6).length - 4) = headerTerminator ∧
    (utf8Encode (("ab\r\n\r\ncd").toList)).take 6 ++
      (utf8Encode (("ab\r\n\r\ncd").toList)).drop 6 = utf8Encode (("ab\r\n\r\ncd").toList) :=
  (find_header_end_spec (utf8Encode (("ab\r\n\r\ncd").toList))).2 2 (by decide)

/-! ## C1: header rewrite idempotence -/

/-- C1 counterexample: a byte string that contains a
proxy-authorization header line but does not end in `\r\n\r\n` is not
returned unchanged; `build_request_header` rejects it as malformed. -/
theorem build_request_header_no_terminator_counterexample :
    bytesContainProxyAuthLine (utf8Encode (("proxy-authorization: x").toList)) = true ∧
    build_request_header (utf8Encode (("proxy-authorization: x").toList))
      (some (("B").toList)) = .error ("malformed HTTP header") ∧
    build_request_header (utf8Encode (("proxy-authorization: x").toList))
      (some (("B").toList)) ≠ .ok (utf8Encode (("proxy-authorization: x").toList)) := by
  refine ⟨by decide, by decide, by decide⟩

/-- C1 (amended): for any header byte string ending in `\r\n\r\n` whose
pre-terminator bytes decode as UTF-8 text containing a
proxy-authorization line (case-insensitively, left-trimmed), the rewrite
returns the header unchanged, for every auth value. -/
theorem build_request_header_idempotent (h : List Nat) (auth : List Char) (cs : List Char)
    (hlen : 4 ≤ h.length) (hterm : h.drop (h.length - 4) = headerTerminator)
    (hdec : utf8Decode (h.take (h.length - 4)) = some cs)
    (hline : hasProxyAuthLine cs = true) :
    build_request_header h (some auth) = .ok h := by
  have h4 : ¬ h.length < 4 := by omega
  simp [build_request_header, h4, hterm, hdec, hline]

/-- C1 witness: the amended idempotence theorem evaluated on a concrete
header that already carries a (lower-case) proxy-authorization line. -/
theorem build_request_header_idempotent_witness :
    build_request_header (utf8Encode (("GET / HTTP/1.1\r\nproxy-authorization: old\r\n\r\n").toList))
      (some (("Basic dTpw").toList)) =
      .ok (utf8Encode (("GET / HTTP/1.1\r\nproxy-authorization: old\r\n\r\n").toList)) :=
  build_request_header_idempotent _ _
    (("GET / HTTP/1.1\r\nproxy-authorization: old").toList)
    (by decide) (by decide) (by decide) (by decide)

/-! ## C10: size limit checked before terminator search -/

set_option linter.unusedVariables false in
/-- C10: in any iteration of `read_http_message`, if appending the
incoming chunk pushes the accumulated buffer over the limit, the call
fails with the size error — even when that same chunk completed the
`\r\n\r\n` terminator inside the buffer. -/
theorem read_http_message_limit_checked_first (limit : Nat) (buffer chunk : List Nat)
    (rest : List (List Nat)) (hne : chunk ≠ [])
    (hlen : limit < (buffer ++ chunk).length)
    (hterm : find_header_end (buffer ++ chunk) ≠ none) :
    read_http_message limit (chunk :: rest) buffer =
      .error ("message header exceeded " ++ toString limit ++ " bytes") := by
  have hsum : limit < buffer.length + chunk.length := by simpa using hlen
  simp only [read_http_message, if_neg hne]
  rw [if_pos (by simpa using hsum)]

/-- C10 witness: with 64 KiB already buffered, a 100-byte chunk whose
last four bytes are `\r\n\r\n` pushes the buffer over the limit and is
rejected with the size error although the terminator is now present. -/
theorem read_http_message_limit_checked_first_witness :
    finalChunk ≠ [] ∧ HEADER_LIMIT < (fullBuffer ++ finalChunk).length ∧
    find_header_end (fullBuffer ++ finalChunk) ≠ none ∧
    read_http_message HEADER_LIMIT [finalChunk] fullBuffer =
      .error ("message header exceeded " ++ toString HEADER_LIMIT ++ " bytes") := by
  have hchunkLen : finalChunk.length = 100 := by
    rw [finalChunk, List.length_append, List.length_replicate]
    rfl
  have hbufLen : fullBuffer.length = 65536 := by
    rw [fullBuffer, List.length_replicate]
  have hne : finalChunk ≠ [] := by
    intro hcontra
    have hl := congrArg List.length hcontra
    rw [hchunkLen] at hl
    simp at hl
  have hlen : HEADER_LIMIT < (fullBuffer ++ finalChunk).length := by
    rw [List.length_append, hbufLen, hchunkLen]
    norm_num [HEADER_LIMIT]
  have hcomb : fullBuffer ++ finalChunk = List.replicate 65632 (97 : Nat) ++ headerTerminator := by
    rw [fullBuffer, finalChunk, ← List.append_assoc, ← List.replicate_add]
  have hterm : find_header_end (fullBuffer ++ finalChunk) ≠ none := by
    intro hnone
    apply (find_header_end_none_iff _).mp hnone 65632
    unfold occursAt
    rw [hcomb]
    have hdrop : List.drop 65632 (List.replicate 65632 (97 : Nat) ++ headerTerminator) =
        headerTerminator := by
      have h2 := List.drop_left (List.replicate 65632 (97 : Nat)) headerTerminator
      rwa [List.length_replicate] at h2
    rw [hdrop]
    decide
  exact ⟨hne, hlen, hterm,
    read_http_message_limit_checked_first HEADER_LIMIT fullBuffer finalChunk [] hne hlen hterm⟩

/-! ## Lemmas about `splitNL` / `rustLines` -/

theorem splitNL_ne_nil (cs : List Char) : splitNL cs ≠ [] := by
  match cs with
  | [] => simp [splitNL]
  | c :: rest =>
    by_cases hc : c = '\n'
    · subst hc
      simp [splitNL]
    · simp only [splitNL]
      split <;> simp_all

theorem splitNL_cons_ne (c : Char) (rest : List Char) (hc : c ≠ '\n') :
    splitNL (c :: rest) =
      match splitNL rest with
      | p :: ps => (c :: p) :: ps
      | [] => [[c]] := by
  simp only [splitNL]

theorem splitNL_no_sep (L : List Char) (hnl : '\n' ∉ L) : splitNL L = [L] := by
  induction L with
  | nil => rfl
  | cons c rest ih =>
    have hc : c ≠ '\n' := fun hcc => hnl (by simp [hcc])
    have hrest : '\n' ∉ rest := fun hm => hnl (by simp [hm])
    rw [splitNL_cons_ne c rest hc, ih hrest]

theorem splitNL_append_crlf (cs L : List Char) (hnl : '\n' ∉ L) :
    splitNL (cs ++ '\r' :: '\n' :: L) =
      (splitNL cs).dropLast ++ [(splitNL cs).getLastD [] ++ ['\r'], L] := by
  induction cs with
  | nil =>
    rw [List.nil_append]
    rw [splitNL_cons_ne '\r' ('\n' :: L) (by decide)]
    have h1 : splitNL ('\n' :: L) = [] :: splitNL L := by simp [splitNL]
    rw [h1, splitNL_no_sep L hnl]
    rfl
  | cons c cs ih =>
    by_cases hc : c = '\n'
    · subst hc
      have h1 : splitNL ('\n' :: (cs ++ '\r' :: '\n' :: L)) = [] :: splitNL (cs ++ '\r' :: '\n' :: L) := by
        simp [splitNL]
      rw [List.cons_append, h1, ih]
      have h2 : splitNL ('\n' :: cs) = [] :: splitNL cs := by simp [splitNL]
      rw [h2]
      obtain ⟨p, ps, hps⟩ : ∃ p ps, splitNL cs = p :: ps := by
        match hsp : splitNL cs with
        | [] => exact absurd hsp (splitNL_ne_nil cs)
        | p :: ps => exact ⟨p, ps, rfl⟩
      rw [hps]
      simp
    · rw [List.cons_append, splitNL_cons_ne c _ hc, ih, splitNL_cons_ne c cs hc]
      obtain ⟨p, ps, hps⟩ : ∃ p ps, splitNL cs = p :: ps := by
        match hsp : splitNL cs with
        | [] => exact absurd hsp (splitNL_ne_nil cs)
        | p :: ps => exact ⟨p, ps, rfl⟩
      rw [hps]
      cases ps with
      | nil => simp
      | cons q qs => simp

theorem stripCR_append_cr (l : List Char) : stripCR (l ++ ['\r']) = l := by
  unfold stripCR
  rw [if_pos (List.getLast?_concat l)]
  exact List.dropLast_concat

/-- Appending a terminated `\n`-free non-empty line adds exactly that
line to `rustLines`, possibly after an extra empty line. -/
theorem countP_rustLines_append (p : List Char → Bool) (hp : p [] = false)
    (cs L : List Char) (hnl : '\n' ∉ L) (hne : L ≠ []) :
    (rustLines (cs ++ '\r' :: '\n' :: L)).countP p =
      (rustLines cs).countP p + (if p L then 1 else 0) := by
  obtain ⟨l0, L', hL⟩ : ∃ l0 L', L = l0 :: L' := by
    match L, hne with
    | l0 :: L', _ => exact ⟨l0, L', rfl⟩
  obtain ⟨gl, hgl⟩ : ∃ gl, (splitNL cs).getLast? = some gl := by
    match hsp : (splitNL cs).getLast? with
    | some gl => exact ⟨gl, rfl⟩
    | none => exact absurd (List.getLast?_eq_none_iff.mp hsp) (splitNL_ne_nil cs)
  have hglD : (splitNL cs).getLastD [] = gl := by
    rw [List.getLastD_eq_getLast?, hgl]
    rfl
  have hsplit := splitNL_append_crlf cs L hnl
  rw [hglD] at hsplit
  have hparts : splitNL (cs ++ '\r' :: '\n' :: L) =
      ((splitNL cs).dropLast ++ [gl ++ ['\r']]) ++ [L] := by
    rw [hsplit]
    simp
  have hlines : rustLines (cs ++ '\r' :: '\n' :: L) =
      ((splitNL cs).dropLast.map stripCR ++ [gl]) ++ [L] := by
    subst hL
    unfold rustLines
    rw [hparts, List.getLast?_concat, List.dropLast_concat]
    dsimp only
    simp [List.map_append, stripCR_append_cr]
  have hlinesOld : rustLines cs =
      (splitNL cs).dropLast.map stripCR ++ (if gl = [] then [] else [gl]) := by
    unfold rustLines
    rw [hgl]
    by_cases hglnil : gl = []
    · subst hglnil
      simp
    · rw [if_neg hglnil]
      match gl, hglnil with
      | g0 :: gs, _ => rfl
  rw [hlines, hlinesOld]
  by_cases hpL : p L <;> by_cases hpgl : p gl <;> by_cases hglnil : gl = [] <;>
    simp_all [List.countP_append, List.countP_cons]

/-! ## C2: header rewrite correctness -/

theorem utf8Encode_cons (c : Char) (cs : List Char) :
    utf8Encode (c :: cs) = utf8EncodeChar c ++ utf8Encode cs := by
  simp [utf8Encode]

theorem utf8Encode_append (a b : List Char) :
    utf8Encode (a ++ b) = utf8Encode a ++ utf8Encode b := by
  simp [utf8Encode]

theorem isProxyAuthLine_insert (auth : List Char) :
    isProxyAuthLine (proxyAuthHeaderText ++ auth) = true := by
  unfold isProxyAuthLine
  rw [List.isPrefixOf_iff_prefix]
  have h1 : rustTrimStart (proxyAuthHeaderText ++ auth) = proxyAuthHeaderText ++ auth := by
    have hpa : proxyAuthHeaderText = 'P' :: (("roxy-Authorization: ").toList) := by decide
    unfold rustTrimStart
    rw [hpa, List.cons_append, List.dropWhile_cons, if_neg (by decide)]
  rw [h1, List.map_append]
  have h2 : proxyAuthHeaderText.map asciiLower = proxyAuthNeedle ++ [' '] := by decide
  rw [h2, List.append_assoc]
  exact List.prefix_append _ _

/-- C2 (amended): for any header ending in `\r\n\r\n` whose
pre-terminator bytes decode as UTF-8 text with no proxy-authorization
line, and any auth value containing no line feed, the rewrite succeeds
and returns exactly the original pre-terminator bytes, then `\r\n`,
then `Proxy-Authorization: `, then the auth value, then `\r\n\r\n`; so
the result still ends in `\r\n\r\n`, preserves every pre-terminator
byte of the input as a prefix, and contains exactly one
proxy-authorization line. -/
theorem build_request_header_inserts (h : List Nat) (auth : List Char) (cs : List Char)
    (hlen4 : 4 ≤ h.length) (hterm : h.drop (h.length - 4) = headerTerminator)
    (hdec : utf8Decode (h.take (h.length - 4)) = some cs)
    (hline : hasProxyAuthLine cs = false)
    (hauth : '\n' ∉ auth) :
    ∃ r, build_request_header h (some auth) = .ok r ∧
      r = h.take (h.length - 4) ++ [13, 10] ++ utf8Encode proxyAuthHeaderText ++
        utf8Encode auth ++ headerTerminator ∧
      r.drop (r.length - 4) = headerTerminator ∧
      h.take (h.length - 4) <+: r ∧
      countProxyAuthLines r = 1 := by
  have h4 : ¬ h.length < 4 := by omega
  have hbuild : build_request_header h (some auth) =
      .ok (h.take (h.length - 4) ++ [13, 10] ++ utf8Encode proxyAuthHeaderText ++
        utf8Encode auth ++ headerTerminator) := by
    simp [build_request_header, h4, hterm, hdec, hline]
  refine ⟨_, hbuild, rfl, ?_, ?_, ?_⟩
  · rw [List.length_append]
    have h44 : (h.take (h.length - 4) ++ [13, 10] ++ utf8Encode proxyAuthHeaderText ++
        utf8Encode auth).length + headerTerminator.length - 4 =
        (h.take (h.length - 4) ++ [13, 10] ++ utf8Encode proxyAuthHeaderText ++
        utf8Encode auth).length := by
      simp [headerTerminator]
    rw [h44, List.drop_left]
  · exact ⟨[13, 10] ++ utf8Encode proxyAuthHeaderText ++ utf8Encode auth ++ headerTerminator,
      by simp [List.append_assoc]⟩
  · have hCR : utf8EncodeChar '\r' = [13] := by decide
    have hLF : utf8EncodeChar '\n' = [10] := by decide
    have heq : h.take (h.length - 4) ++ [13, 10] ++ utf8Encode proxyAuthHeaderText ++
        utf8Encode auth =
        h.take (h.length - 4) ++ utf8Encode ('\r' :: '\n' :: (proxyAuthHeaderText ++ auth)) := by
      rw [utf8Encode_cons, utf8Encode_cons, utf8Encode_append, hCR, hLF]
      simp [List.append_assoc]
    have hXdec : utf8Decode (h.take (h.length - 4) ++ [13, 10] ++
        utf8Encode proxyAuthHeaderText ++ utf8Encode auth) =
        some (cs ++ '\r' :: '\n' :: (proxyAuthHeaderText ++ auth)) := by
      rw [heq, utf8Decode_append _ hdec, utf8Decode_encode]
      rfl
    have htake : (h.take (h.length - 4) ++ [13, 10] ++ utf8Encode proxyAuthHeaderText ++
        utf8Encode auth ++ headerTerminator).take
        ((h.take (h.length - 4) ++ [13, 10] ++ utf8Encode proxyAuthHeaderText ++
          utf8Encode auth ++ headerTerminator).length - 4) =
        h.take (h.length - 4) ++ [13, 10] ++ utf8Encode proxyAuthHeaderText ++
          utf8Encode auth := by
      rw [List.length_append]
      have h44 : (h.take (h.length - 4) ++ [13, 10] ++ utf8Encode proxyAuthHeaderText ++
          utf8Encode auth).length + headerTerminator.length - 4 =
          (h.take (h.length - 4) ++ [13, 10] ++ utf8Encode proxyAuthHeaderText ++
          utf8Encode auth).length := by
        simp [headerTerminator]
      rw [h44, List.take_left]
    unfold countProxyAuthLines
    rw [htake, hXdec]
    dsimp only
    rw [countP_rustLines_append isProxyAuthLine (by decide) cs (proxyAuthHeaderText ++ auth)
      (by
        intro hmem
        rcases List.mem_append.mp hmem with hmem | hmem
        · exact absurd hmem (by decide)
        · exact hauth hmem)
      (by
        intro hcontra
        have := congrArg List.length hcontra
        simp [proxyAuthHeaderText] at this)]
    have hzero : (rustLines cs).countP isProxyAuthLine = 0 := by
      rw [List.countP_eq_zero]
      intro l hl
      have hany := hline
      unfold hasProxyAuthLine at hany
      rw [List.any_eq_false] at hany
      exact hany l hl
    rw [hzero, isProxyAuthLine_insert]
    rfl

/-- C2 witness: the insertion theorem evaluated on a concrete header
and the auth value `Basic dTpw`. -/
theorem build_request_header_inserts_witness :
    ∃ r, build_request_header (utf8Encode (("GET / HTTP/1.1\r\nHost: t\r\n\r\n").toList))
        (some (("Basic dTpw").toList)) = .ok r ∧
      r = (utf8Encode (("GET / HTTP/1.1\r\nHost: t\r\n\r\n").toList)).take
          ((utf8Encode (("GET / HTTP/1.1\r\nHost: t\r\n\r\n").toList)).length - 4) ++ [13, 10] ++
          utf8Encode proxyAuthHeaderText ++ utf8Encode (("Basic dTpw").toList) ++
          headerTerminator ∧
      r.drop (r.length - 4) = headerTerminator ∧
      (utf8Encode (("GET / HTTP/1.1\r\nHost: t\r\n\r\n").toList)).take
        ((utf8Encode (("GET / HTTP/1.1\r\nHost: t\r\n\r\n").toList)).length - 4) <+: r ∧
      countProxyAuthLines r = 1 :=
  build_request_header_inserts (utf8Encode (("GET / HTTP/1.1\r\nHost: t\r\n\r\n").toList))
    (("Basic dTpw").toList) (("GET / HTTP/1.1\r\nHost: t").toList)
    (by decide) (by decide) (by decide) (by decide) (by decide)

set_option maxRecDepth 16384 in
/-- C2 counterexample: with an auth value that itself contains
`\r\nProxy-Authorization: `, the rewritten header satisfies the claim's
hypotheses but carries two proxy-authorization lines, not exactly
one. -/
theorem build_request_header_multiline_auth_counterexample :
    utf8Decode ((utf8Encode (("GET / HTTP/1.1\r\n\r\n").toList)).take
        ((utf8Encode (("GET / HTTP/1.1\r\n\r\n").toList)).length - 4)) =
      some (("GET / HTTP/1.1").toList) ∧
    hasProxyAuthLine (("GET / HTTP/1.1").toList) = false ∧
    (utf8Encode (("GET / HTTP/1.1\r\n\r\n").toList)).drop
        ((utf8Encode (("GET / HTTP/1.1\r\n\r\n").toList)).length - 4) = headerTerminator ∧
    build_request_header (utf8Encode (("GET / HTTP/1.1\r\n\r\n").toList))
        (some (("x\r\nProxy-Authorization: y").toList)) =
      .ok (utf8Encode
        (("GET / HTTP/1.1\r\nProxy-Authorization: x\r\nProxy-Authorization: y\r\n\r\n").toList)) ∧
    countProxyAuthLines (utf8Encode
      (("GET / HTTP/1.1\r\nProxy-Authorization: x\r\nProxy-Authorization: y\r\n\r\n").toList)) = 2 := by
  refine ⟨by decide, by decide, by decide, by decide, by decide⟩

/-! ## C3: status policy of a single attempt -/

/-- C3: when an attempt reaches a parseable upstream status `s`, it
returns `Retry` and inserts the backend address into the ban set
exactly when `s ∈ {402, 407, 511}`; for any other status it returns
`Success` carrying the upstream socket handle, the response header
bytes, the response body-prefix bytes and the status code, leaving the
ban set unchanged. -/
theorem try_proxy_once_status_policy (banned : Finset (List Char)) (addr : List Char)
    (meta : ProxyMetadata) (initial : InitialRequest) (net : AttemptNet)
    (hnd : Nat) (rh rb req : List Nat) (s : Nat)
    (hconn : net.connect = .ok hnd)
    (hresp : net.response = .ok (rh, rb))
    (hbuild : build_request_header initial.header meta.basic_auth_header = .ok req)
    (hstatus : parse_status_code rh = .ok s) :
    (((try_proxy_once banned addr meta initial net).result =
        .ok (.retry s (insert addr banned).card) ∧
      (try_proxy_once banned addr meta initial net).banned = insert addr banned) ↔
      (s = 402 ∨ s = 407 ∨ s = 511)) ∧
    (¬ (s = 402 ∨ s = 407 ∨ s = 511) →
      (try_proxy_once banned addr meta initial net).result = .ok (.success hnd rh rb s) ∧
      (try_proxy_once banned addr meta initial net).banned = banned) := by
  have hval : try_proxy_once banned addr meta initial net =
      if s = 407 ∨ s = 402 ∨ s = 511 then
        ⟨.ok (.retry s (insert addr banned).card), insert addr banned,
          req :: (if initial.bodyPrefix = [] then [] else [initial.bodyPrefix])⟩
      else
        ⟨.ok (.success hnd rh rb s), banned,
          req :: (if initial.bodyPrefix = [] then [] else [initial.bodyPrefix])⟩ := by
    unfold try_proxy_once
    rw [hconn]
    dsimp only
    rw [hbuild]
    dsimp only
    rw [hresp]
    dsimp only
    rw [hstatus]
  by_cases hs : s = 407 ∨ s = 402 ∨ s = 511
  · rw [hval, if_pos hs]
    refine ⟨⟨fun _ => by tauto, fun _ => ⟨rfl, rfl⟩⟩, fun hneg => absurd (by tauto) hneg⟩
  · rw [hval, if_neg hs]
    constructor
    · constructor
      · intro hcontra
        have hres := hcontra.1
        simp at hres
      · intro habs
        exact absurd (by tauto) hs
    · intro _
      exact ⟨rfl, rfl⟩

set_option maxRecDepth 16384 in
/-- C3 witness: a concrete attempt whose upstream answers 407 is
classified `Retry` and its address is inserted into the ban set, via
the real byte-level status parser. -/
theorem try_proxy_once_status_policy_witness :
    (try_proxy_once ∅ (("1.2.3.4:8080").toList)
      (ProxyMetadata.mk (("http").toList) (("h").toList) 80 none none (("http://h").toList))
      (InitialRequest.mk (utf8Encode (("GET / HTTP/1.1\r\n\r\n").toList)) [] false)
      (AttemptNet.mk (Except.ok 7)
        (Except.ok (utf8Encode (("HTTP/1.1 407 Proxy Authentication Required\r\n\r\n").toList),
          [])))).result =
      .ok (.retry 407 (insert (("1.2.3.4:8080").toList) (∅ : Finset (List Char))).card) ∧
    (try_proxy_once ∅ (("1.2.3.4:8080").toList)
      (ProxyMetadata.mk (("http").toList) (("h").toList) 80 none none (("http://h").toList))
      (InitialRequest.mk (utf8Encode (("GET / HTTP/1.1\r\n\r\n").toList)) [] false)
      (AttemptNet.mk (Except.ok 7)
        (Except.ok (utf8Encode (("HTTP/1.1 407 Proxy Authentication Required\r\n\r\n").toList),
          [])))).banned = insert (("1.2.3.4:8080").toList) (∅ : Finset (List Char)) :=
  ((try_proxy_once_status_policy ∅ (("1.2.3.4:8080").toList)
    (ProxyMetadata.mk (("http").toList) (("h").toList) 80 none none (("http://h").toList))
    (InitialRequest.mk (utf8Encode (("GET / HTTP/1.1\r\n\r\n").toList)) [] false)
    (AttemptNet.mk (Except.ok 7)
      (Except.ok (utf8Encode (("HTTP/1.1 407 Proxy Authentication Required\r\n\r\n").toList), [])))
    7 (utf8Encode (("HTTP/1.1 407 Proxy Authentication Required\r\n\r\n").toList)) []
    (utf8Encode (("GET / HTTP/1.1\r\n\r\n").toList)) 407
    rfl rfl (by decide) (by decide)).1).mpr (Or.inr (Or.inl rfl))

/-! ## C9: Basic auth synthesis and partial credentials -/

theorem try_proxy_once_sent_head (banned : Finset (List Char)) (addr : List Char)
    (meta : ProxyMetadata) (initial : InitialRequest) (net : AttemptNet)
    (hnd : Nat) (req : List Nat)
    (hconn : net.connect = .ok hnd)
    (hbuild : build_request_header initial.header meta.basic_auth_header = .ok req) :
    (try_proxy_once banned addr meta initial net).sent.head? = some req := by
  unfold try_proxy_once
  rw [hconn]
  dsimp only
  rw [hbuild]
  dsimp only
  cases hresp : net.response with
  | error e => rfl
  | ok pr =>
    obtain ⟨rh, rb⟩ := pr
    dsimp only
    cases hstat : parse_status_code rh with
    | error e => rfl
    | ok s =>
      dsimp only
      by_cases hs : s = 407 ∨ s = 402 ∨ s = 511
      · rw [if_pos hs]
        rfl
      · rw [if_neg hs]
        rfl

/-- C9: `basic_auth_header` yields a value exactly when both username
and password are present, and that value is
`Basic <base64(user:pass)>`; with only one (or neither) credential no
header is synthesized, and the attempt sends the client's request
header unchanged (no Proxy-Authorization injected). -/
theorem basic_auth_header_spec (m : ProxyMetadata) :
    ((∃ v, m.basic_auth_header = some v) ↔ (m.username.isSome ∧ m.password.isSome)) ∧
    (∀ u p, m.username = some u → m.password = some p →
      m.basic_auth_header = some ((("Basic ").toList) ++
        base64Encode (utf8Encode (u ++ ':' :: p)))) ∧
    ((m.username = none ∨ m.password = none) →
      m.basic_auth_header = none ∧
      ∀ (banned : Finset (List Char)) (addr : List Char) (initial : InitialRequest)
        (net : AttemptNet) (hnd : Nat), net.connect = .ok hnd →
        (try_proxy_once banned addr m initial net).sent.head? = some initial.header) := by
  have hsent : m.basic_auth_header = none →
      ∀ (banned : Finset (List Char)) (addr : List Char) (initial : InitialRequest)
        (net : AttemptNet) (hnd : Nat), net.connect = .ok hnd →
        (try_proxy_once banned addr m initial net).sent.head? = some initial.header := by
    intro hba banned addr initial net hnd hconn
    exact try_proxy_once_sent_head banned addr m initial net hnd initial.header hconn
      (by rw [hba]; rfl)
  rcases hu : m.username with _ | u <;> rcases hp : m.password with _ | p
  · have hba : m.basic_auth_header = none := by
      unfold ProxyMetadata.basic_auth_header
      rw [hu, hp]
    exact ⟨by simp [hba, hu], by intro u p hcu; simp [hu] at hcu,
      fun _ => ⟨hba, hsent hba⟩⟩
  · have hba : m.basic_auth_header = none := by
      unfold ProxyMetadata.basic_auth_header
      rw [hu, hp]
    exact ⟨by simp [hba, hu], by intro u p hcu; simp [hu] at hcu,
      fun _ => ⟨hba, hsent hba⟩⟩
  · have hba : m.basic_auth_header = none := by
      unfold ProxyMetadata.basic_auth_header
      rw [hu, hp]
    exact ⟨by simp [hba, hp], by intro u' p' _ hcp; simp [hp] at hcp,
      fun _ => ⟨hba, hsent hba⟩⟩
  · have hba : m.basic_auth_header =
        some ((("Basic ").toList) ++ base64Encode (utf8Encode (u ++ ':' :: p))) := by
      unfold ProxyMetadata.basic_auth_header
      rw [hu, hp]
    refine ⟨by simp [hba, hu, hp], ?_, ?_⟩
    · intro u' p' hcu hcp
      injection hcu with hcu
      injection hcp with hcp
      subst hcu
      subst hcp
      exact hba
    · intro hcontra
      rcases hcontra with hcontra | hcontra
      · cases hcontra
      · cases hcontra

/-- C9 witness: a backend with only a username synthesizes no auth
header and forwards the request header unchanged; one with both
credentials `u`/`p` synthesizes `Basic dTpw`. -/
theorem basic_auth_header_spec_witness :
    (ProxyMetadata.mk (("http").toList) (("h").toList) 80 (some (("u").toList)) none
      (("http://u@h").toList)).basic_auth_header = none ∧
    (try_proxy_once ∅ (("1.2.3.4:80").toList)
      (ProxyMetadata.mk (("http").toList) (("h").toList) 80 (some (("u").toList)) none
        (("http://u@h").toList))
      (InitialRequest.mk (utf8Encode (("GET / HTTP/1.1\r\n\r\n").toList)) [] false)
      (AttemptNet.mk (Except.ok 7) (Except.error ("closed")))).sent.head? =
      some (utf8Encode (("GET / HTTP/1.1\r\n\r\n").toList)) ∧
    (ProxyMetadata.mk (("http").toList) (("h").toList) 80 (some (("u").toList))
      (some (("p").toList)) (("http://u:p@h").toList)).basic_auth_header =
      some ((("Basic ").toList) ++ base64Encode (utf8Encode ((("u").toList) ++ ':' :: (("p").toList)))) :=
  have h1 := (basic_auth_header_spec (ProxyMetadata.mk (("http").toList) (("h").toList) 80
    (some (("u").toList)) none (("http://u@h").toList))).2.2 (Or.inr rfl)
  have h2 := (basic_auth_header_spec (ProxyMetadata.mk (("http").toList) (("h").toList) 80
    (some (("u").toList)) (some (("p").toList)) (("http://u:p@h").toList))).2.1
    (("u").toList) (("p").toList) rfl rfl
  ⟨h1.1, h1.2 ∅ (("1.2.3.4:80").toList)
    (InitialRequest.mk (utf8Encode (("GET / HTTP/1.1\r\n\r\n").toList)) [] false)
    (AttemptNet.mk (Except.ok 7) (Except.error ("closed"))) 7 rfl, h2⟩

/-! ## C7: round-robin selection -/

theorem select_fst (bs : List Backend) (c : Nat) (hne : bs ≠ []) :
    ((SimpleBackendPool.mk bs c).select).1 = bs[c % bs.length]? := by
  unfold SimpleBackendPool.select
  rw [if_neg (by simpa [List.isEmpty_iff] using hne)]

theorem runSelects_eq (bs : List Backend) (hne : bs ≠ []) :
    ∀ (n c : Nat), c < USIZE_MOD → runSelects (SimpleBackendPool.mk bs c) n =
      (List.range n).map (fun k => bs[((c + k) % USIZE_MOD) % bs.length]?) := by
  intro n
  induction n with
  | zero => intro c _; simp [runSelects]
  | succ n ih =>
    intro c hc
    have hsel : (SimpleBackendPool.mk bs c).select =
        (bs[c % bs.length]?, ⟨bs, (c + 1) % USIZE_MOD⟩) := by
      unfold SimpleBackendPool.select
      rw [if_neg (by simpa [List.isEmpty_iff] using hne)]
    have hM : 0 < USIZE_MOD := by norm_num [USIZE_MOD]
    simp only [runSelects]
    rw [hsel]
    dsimp only
    rw [ih ((c + 1) % USIZE_MOD) (Nat.mod_lt _ hM)]
    rw [List.range_succ_eq_map, List.map_cons, List.map_map]
    congr 1
    · rw [Nat.add_zero, Nat.mod_eq_of_lt hc]
    · apply List.map_congr_left
      intro a _
      simp only [Function.comp]
      rw [Nat.mod_add_mod]
      have harith : c + 1 + a = c + a.succ := by omega
      rw [harith]

theorem range_map_getElem {α : Type} (l : List α) :
    (List.range l.length).map (fun k => l[k]?) = l.map some := by
  induction l with
  | nil => simp
  | cons a t ih =>
    rw [List.length_cons, List.range_succ_eq_map, List.map_cons, List.map_map, List.map_cons]
    congr 1
    · simp
    · have hfun : ((fun k => (a :: t)[k]?) ∘ Nat.succ) = (fun k => t[k]?) := by
        funext k
        simp
      rw [hfun, ih]

/-- C7 counterexample: the `usize` round-robin counter wraps at `2^64`,
so over a registry of three backends the `2^64`-th call (counting from
0, single-threaded, from a fresh pool) returns the backend at index 0,
not the backend at index `2^64 mod 3 = 1` that the claim predicts. -/
theorem select_counter_wrap_counterexample :
    (runSelects (SimpleBackendPool.new
        [Backend.mk (("a").toList) none, Backend.mk (("b").toList) none,
          Backend.mk (("c").toList) none]) (2 ^ 64 + 1))[2 ^ 64]? =
      some (some (Backend.mk (("a").toList) none)) ∧
    (2 ^ 64) % 3 = 1 ∧
    ([Backend.mk (("a").toList) none, Backend.mk (("b").toList) none,
      Backend.mk (("c").toList) none])[(2 ^ 64) % 3]? =
      some (Backend.mk (("b").toList) none) ∧
    Backend.mk (("a").toList) none ≠ Backend.mk (("b").toList) none := by
  refine ⟨?_, by decide, by decide, by decide⟩
  have h3 := runSelects_eq
    [Backend.mk (("a").toList) none, Backend.mk (("b").toList) none,
      Backend.mk (("c").toList) none] (by decide) (2 ^ 64 + 1) 0 (by norm_num [USIZE_MOD])
  rw [show SimpleBackendPool.new
      [Backend.mk (("a").toList) none, Backend.mk (("b").toList) none,
        Backend.mk (("c").toList) none] =
      SimpleBackendPool.mk
        [Backend.mk (("a").toList) none, Backend.mk (("b").toList) none,
          Backend.mk (("c").toList) none] 0 from rfl, h3]
  rw [List.getElem?_map, List.getElem?_range (by omega)]
  decide

/-- C7 (amended): `select()` returns `None` exactly on an empty
registry; the call with counter `k` returns the backend at index
`k mod len`, and the counter advances with `usize` wrap-around, so from
a fresh pool the k-th call (counting from 0, single-threaded) yields
index `(k mod 2^64) mod len` — which is `k mod len` for every
`k < 2^64`; hence over a registry of `N ≤ 2^64` backends, `N`
successive calls return every backend once, and with distinct registry
addresses those are `N` distinct addresses. -/
theorem select_round_robin :
    (∀ p : SimpleBackendPool, (p.select).1 = none ↔ p.backends = []) ∧
    (∀ (bs : List Backend) (c : Nat), bs ≠ [] →
      ((SimpleBackendPool.mk bs c).select).1 = bs[c % bs.length]?) ∧
    (∀ (bs : List Backend) (n : Nat), bs ≠ [] →
      runSelects (SimpleBackendPool.new bs) n =
        (List.range n).map (fun k => bs[(k % USIZE_MOD) % bs.length]?)) ∧
    (∀ bs : List Backend, bs ≠ [] → bs.length ≤ USIZE_MOD →
      runSelects (SimpleBackendPool.new bs) bs.length = bs.map some) ∧
    (∀ bs : List Backend, bs ≠ [] → bs.length ≤ USIZE_MOD → (bs.map Backend.addr).Nodup →
      ((runSelects (SimpleBackendPool.new bs) bs.length).filterMap
        (fun r => r.map Backend.addr)).Nodup) := by
  have h3 : ∀ (bs : List Backend) (n : Nat), bs ≠ [] →
      runSelects (SimpleBackendPool.new bs) n =
        (List.range n).map (fun k => bs[(k % USIZE_MOD) % bs.length]?) := by
    intro bs n hne
    have h := runSelects_eq bs hne n 0 (by norm_num [USIZE_MOD])
    simpa [SimpleBackendPool.new] using h
  have h4 : ∀ bs : List Backend, bs ≠ [] → bs.length ≤ USIZE_MOD →
      runSelects (SimpleBackendPool.new bs) bs.length = bs.map some := by
    intro bs hne hle
    rw [h3 bs bs.length hne]
    rw [show (List.range bs.length).map (fun k => bs[(k % USIZE_MOD) % bs.length]?) =
        (List.range bs.length).map (fun k => bs[k]?) from ?_]
    · exact range_map_getElem bs
    · apply List.map_congr_left
      intro k hk
      have hk1 : k < bs.length := List.mem_range.mp hk
      rw [Nat.mod_eq_of_lt (lt_of_lt_of_le hk1 hle), Nat.mod_eq_of_lt hk1]
  refine ⟨?_, ?_, h3, h4, ?_⟩
  · intro p
    unfold SimpleBackendPool.select
    by_cases he : p.backends.isEmpty
    · rw [if_pos he]
      simpa [List.isEmpty_iff] using he
    · rw [if_neg he]
      have hne : p.backends ≠ [] := by simpa [List.isEmpty_iff] using he
      have hlen : 0 < p.backends.length := List.length_pos.mpr hne
      have hidx : p.counter % p.backends.length < p.backends.length := Nat.mod_lt _ hlen
      simp [List.getElem?_eq_getElem hidx, hne]
  · intro bs c hne
    exact select_fst bs c hne
  · intro bs hne hle hnodup
    rw [h4 bs hne hle, List.filterMap_map]
    have hfun : ((fun r => Option.map Backend.addr r) ∘ some) = some ∘ Backend.addr := by
      funext b
      rfl
    rw [hfun, List.filterMap_eq_map]
    exact hnodup

/-- C7 witness: two distinct-address backends yield, from a fresh pool,
exactly the two backends in order, with distinct addresses. -/
theorem select_round_robin_witness :
    runSelects (SimpleBackendPool.new
      [Backend.mk (("a").toList) none, Backend.mk (("b").toList) none]) 2 =
      [Backend.mk (("a").toList) none, Backend.mk (("b").toList) none].map some ∧
    ((runSelects (SimpleBackendPool.new
        [Backend.mk (("a").toList) none, Backend.mk (("b").toList) none]) 2).filterMap
      (fun r => r.map Backend.addr)).Nodup :=
  ⟨select_round_robin.2.2.2.1 [Backend.mk (("a").toList) none, Backend.mk (("b").toList) none]
    (by decide) (by decide),
   select_round_robin.2.2.2.2 [Backend.mk (("a").toList) none, Backend.mk (("b").toList) none]
    (by decide) (by decide) (by decide)⟩

/-! ## C4: no backend is attempted twice in a session -/

theorem sessionLoop_trace_nodup (net : List Char → AttemptNet) (initial : InitialRequest)
    (total : Nat) :
    ∀ (fuel : Nat) (pool : SimpleBackendPool) (banned attempted : Finset (List Char))
      (lastError : Option String) (trace : List (List Char)),
      trace.Nodup → (∀ a ∈ trace, a ∈ attempted) →
      (sessionLoop net initial total fuel pool banned attempted lastError trace).trace.Nodup := by
  intro fuel
  induction fuel with
  | zero =>
    intro pool banned attempted lastError trace hnd _
    exact hnd
  | succ fuel ih =>
    intro pool banned attempted lastError trace hnd hsub
    unfold sessionLoop
    by_cases hcard : total ≤ attempted.card
    · rw [if_pos hcard]
      exact hnd
    · rw [if_neg hcard]
      match hsel : pool.select with
      | (none, p') => exact hnd
      | (some b, p') =>
        dsimp only
        by_cases hban : b.addr ∈ banned
        · rw [if_pos hban]
          exact ih p' banned (insert b.addr attempted) lastError trace hnd
            (fun a ha => Finset.mem_insert_of_mem (hsub a ha))
        · rw [if_neg hban]
          by_cases hatt : b.addr ∈ attempted
          · rw [if_pos hatt]
            exact ih p' banned attempted lastError trace hnd hsub
          · rw [if_neg hatt]
            have hnotin : b.addr ∉ trace := fun hmem => hatt (hsub _ hmem)
            have hnd' : (trace ++ [b.addr]).Nodup := by
              simp [List.nodup_append, hnd, hnotin]
            have hsub' : ∀ a ∈ trace ++ [b.addr], a ∈ insert b.addr attempted := by
              intro a ha
              rcases List.mem_append.mp ha with ha | ha
              · exact Finset.mem_insert_of_mem (hsub a ha)
              · simp at ha
                subst ha
                exact Finset.mem_insert_self _ _
            cases hmeta : b.metadata with
            | none =>
              dsimp only
              exact ih p' banned (insert b.addr attempted) lastError trace hnd
                (fun a ha => Finset.mem_insert_of_mem (hsub a ha))
            | some meta =>
              dsimp only
              cases hres : (try_proxy_once banned b.addr meta initial (net b.addr)).result with
              | error e =>
                dsimp only
                exact ih p' _ (insert b.addr attempted) (some e) (trace ++ [b.addr]) hnd' hsub'
              | ok o =>
                cases o with
                | success u rh rb status =>
                  dsimp only
                  by_cases hst : status = 407 ∨ status = 402 ∨ status = 511
                  · rw [if_pos hst]
                    exact hnd'
                  · rw [if_neg hst]
                    exact hnd'
                | retry s bc =>
                  dsimp only
                  exact ih p' _ (insert b.addr attempted) lastError (trace ++ [b.addr]) hnd' hsub'

/-- C4: within a single session, the trace of backend addresses passed
to `try_proxy_once` contains no duplicates, for every attempt oracle,
pool state and initial ban set. -/
theorem handle_connection_no_double_attempt (net : List Char → AttemptNet)
    (initial : InitialRequest) (pool : SimpleBackendPool) (banned : Finset (List Char)) :
    (handle_connection net initial pool banned).trace.Nodup := by
  unfold handle_connection
  by_cases hlen : pool.len = 0
  · rw [if_pos hlen]
    exact List.nodup_nil
  · rw [if_neg hlen]
    exact sessionLoop_trace_nodup net initial pool.len LB_MAX_ITERATIONS pool banned ∅ none []
      List.nodup_nil (by intro a ha; cases ha)

/-! ## C6: empty registry means exactly the canned 503 -/

set_option maxRecDepth 16384 in
/-- C6: a session that has read its initial request while the registry
is empty writes exactly the canned 503 bytes of the spec (and nothing
else) downstream and terminates with the pool-empty error; the ban set
is untouched and no backend is attempted. -/
theorem handle_connection_empty_pool_503 (net : List Char → AttemptNet)
    (initial : InitialRequest) (pool : SimpleBackendPool) (banned : Finset (List Char))
    (hempty : pool.backends = []) :
    handle_connection net initial pool banned =
      ⟨[utf8Encode (("HTTP/1.1 503 Service Unavailable\r\nContent-Length: 19\r\nContent-Type: text/plain\r\nConnection: close\r\n\r\nService Unavailable").toList)],
        .unavailable ("no upstream proxies configured"), [], banned⟩ := by
  have hresp : serviceUnavailableResponse =
      utf8Encode (("HTTP/1.1 503 Service Unavailable\r\nContent-Length: 19\r\nContent-Type: text/plain\r\nConnection: close\r\n\r\nService Unavailable").toList) := by
    decide
  unfold handle_connection
  rw [if_pos (by simp [SimpleBackendPool.len, hempty]), hresp]

/-- C6 witness: the empty-pool theorem evaluated at a concrete session. -/
theorem handle_connection_empty_pool_503_witness :
    handle_connection (fun _ => AttemptNet.mk (Except.error ("e")) (Except.error ("e")))
      (InitialRequest.mk (utf8Encode (("GET / HTTP/1.1\r\n\r\n").toList)) [] false)
      (SimpleBackendPool.new []) ∅ =
      ⟨[utf8Encode (("HTTP/1.1 503 Service Unavailable\r\nContent-Length: 19\r\nContent-Type: text/plain\r\nConnection: close\r\n\r\nService Unavailable").toList)],
        .unavailable ("no upstream proxies configured"), [], ∅⟩ :=
  handle_connection_empty_pool_503 (fun _ => AttemptNet.mk (Except.error ("e")) (Except.error ("e")))
    (InitialRequest.mk (utf8Encode (("GET / HTTP/1.1\r\n\r\n").toList)) [] false)
    (SimpleBackendPool.new []) ∅ rfl

/-! ## C8: loader scheme and port behaviour -/

theorem urlParse_nil : urlParse [] = none := rfl

theorem urlParse_hash (rest : List Char) : urlParse ('#' :: rest) = none := rfl

/-- C8 counterexample: the loader accepts a `socks5://` line (any
scheme with an explicit port is accepted): the spec's config grammar
`scheme ∈ {http, https}` is not enforced by the code. -/
theorem load_backends_scheme_counterexample :
    loadLine (fun _ => false) (fun _ => some (("93.184.216.34:1080").toList)) 0
        (("socks5://example.com:1080").toList) =
      .ok (some (Backend.mk (("93.184.216.34:1080").toList)
        (some (ProxyMetadata.mk (("socks5").toList) (("example.com").toList) 1080 none none
          (("socks5://example.com:1080").toList))))) ∧
    (("socks5").toList) ≠ (("http").toList) ∧ (("socks5").toList) ≠ (("https").toList) := by
  refine ⟨by decide, by decide, by decide⟩

/-- C8 (amended): the loader does not restrict the URL scheme, but the
port defaulting holds: an accepted line with scheme `http` and no
explicit port gets port 80, with `https` port 443, and a line whose
port is neither provided nor known-defaultable (http/https/ws/wss/ftp)
is rejected with a line-numbered `missing port` error. -/
theorem load_backends_port_default (tryDirect : List Char → Bool)
    (resolver : List Char → Option (List Char)) (idx : Nat) (line : List Char)
    (u : ParsedUrl) (hurl : urlParse (rustTrim line) = some u) :
    (∀ b, u.scheme = ("http").toList → u.port = none →
      loadLine tryDirect resolver idx line = .ok (some b) →
      ∃ m, b.metadata = some m ∧ m.port = 80) ∧
    (∀ b, u.scheme = ("https").toList → u.port = none →
      loadLine tryDirect resolver idx line = .ok (some b) →
      ∃ m, b.metadata = some m ∧ m.port = 443) ∧
    (u.port = none → defaultPort u.scheme = none →
      loadLine tryDirect resolver idx line =
        .error ("missing port for proxy url on line " ++ toString (idx + 1))) := by
  have hskip : ¬ (rustTrim line = [] ∨ (rustTrim line).head? = some '#') := by
    intro hcontra
    rcases hcontra with hcontra | hcontra
    · rw [hcontra, urlParse_nil] at hurl
      cases hurl
    · obtain ⟨rest, hrest⟩ : ∃ rest, rustTrim line = '#' :: rest := by
        match ht : rustTrim line with
        | [] => rw [ht] at hcontra; cases hcontra
        | c :: rest =>
          rw [ht] at hcontra
          injection hcontra with hc
          subst hc
          exact ⟨rest, rfl⟩
      rw [hrest, urlParse_hash] at hurl
      cases hurl
  have hmain : ∀ port : Nat, (u.port.orElse (fun _ => defaultPort u.scheme)) = some port →
      ∀ b, loadLine tryDirect resolver idx line = .ok (some b) →
      ∃ m, b.metadata = some m ∧ m.port = port := by
    intro port hport b hok
    unfold loadLine at hok
    dsimp only at hok
    rw [if_neg hskip, hurl] at hok
    dsimp only at hok
    rw [hport] at hok
    dsimp only at hok
    by_cases htd : tryDirect (u.host ++ ':' :: (toString port).toList)
    · rw [if_pos htd] at hok
      injection hok with hok
      injection hok with hok
      exact ⟨_, congrArg Backend.metadata hok.symm, rfl⟩
    · rw [if_neg htd] at hok
      cases hres : resolver (u.host ++ ':' :: (toString port).toList) with
      | none =>
        rw [hres] at hok
        cases hok
      | some addr =>
        rw [hres] at hok
        dsimp only at hok
        injection hok with hok
        injection hok with hok
        exact ⟨_, congrArg Backend.metadata hok.symm, rfl⟩
  refine ⟨?_, ?_, ?_⟩
  · intro b hscheme hport hok
    apply hmain 80 _ b hok
    rw [hport, hscheme]
    decide
  · intro b hscheme hport hok
    apply hmain 443 _ b hok
    rw [hport, hscheme]
    decide
  · intro hport hdef
    unfold loadLine
    dsimp only
    rw [if_neg hskip, hurl]
    dsimp only
    rw [show u.port.orElse (fun _ => defaultPort u.scheme) = none from by
      rw [hport]
      simpa using hdef]

/-- C8 witness: a `http://example.com` line (no explicit port) is
accepted with metadata port 80. -/
theorem load_backends_port_default_witness :
    ∃ m, (Backend.mk (("93.184.216.34:80").toList)
        (some (ProxyMetadata.mk (("http").toList) (("example.com").toList) 80 none none
          (("http://example.com").toList)))).metadata = some m ∧ m.port = 80 :=
  (load_backends_port_default (fun _ => false) (fun _ => some (("93.184.216.34:80").toList)) 0
    (("http://example.com").toList)
    (ParsedUrl.mk (("http").toList) [] none (("example.com").toList) none)
    (by decide)).1
    (Backend.mk (("93.184.216.34:80").toList)
      (some (ProxyMetadata.mk (("http").toList) (("example.com").toList) 80 none none
        (("http://example.com").toList))))
    rfl rfl (by decide)

end ProxyWar
